import Mathlib

/-!
Shallow embedding of the settings-menu library (settings.h / settings.cpp):
a registry of settings, a browsing/editing state machine driven by
up/down/ok/stop events, and the display-update calls it issues.

Machine integers of the source are C ints; all index arithmetic here uses
Int with the exact guards of the source.  The per-setting change callback
(the fPtr field cast to ChangeSettingFDef) is modelled as an environment
cb : Nat -> Setting -> Bool giving, for the setting at each registry
position, the boolean its callback returns on a given setting snapshot;
callback invocations are recorded in an event trace.  Display output is
likewise recorded as events; the source printAt always returns true, and
displaySettings returns false when the library does not own the display.
-/

set_option maxHeartbeats 1000000

namespace SettingsLib

/-- Color constants from st7735_properties.h. -/
def BLACK : Int := 0x0000

def BLUE : Int := 0x001F

def RED : Int := 0xF800

def WHITE : Int := 0xFFFF

/-- TFT_LINES = TFT_HEIGHT / CHAR_HEIGHT = 128 / 8 from st7735_properties.h. -/
def TFT_LINES : Int := 128 / 8

/-- TFT_CHARS from st7735_properties.h. -/
def TFT_CHARS : Int := 26

/-- The Setting struct of settings.h.  name = none models the NULL name of a
separator row.  The fPtr field is modelled externally (see cb environments).
The can field is not written by createSetting in the source (uninitialized
malloc memory), so creation takes an arbitrary initial value for it. -/
structure Setting where
  name : Option String
  values : List String
  nValues : Int
  currentValue : Int
  newValue : Int
  liveUpdate : Bool
  can : Bool
deriving DecidableEq, Repr

/-- The module-level mutable state of settings.cpp.  nSettings is
settings.length; the registry array is modelled as the list of created
settings (initSettings is assumed to have succeeded). -/
structure SState where
  settings : List Setting
  maxSettings : Int
  currentSetting : Int
  topSetting : Int
  editing : Bool
  canUseDisplay : Bool
deriving DecidableEq, Repr

/-- Observable events: a call to printAt (a display write), the fillScreen
call of displaySettings, and a change-callback invocation (with the
snapshot passed to it and the boolean it returned). -/
inductive Ev where
  | draw (x y : Int) (text : Option String) (clean : Bool) (fg bg leading : Int)
  | fillScreen
  | call (idx : Nat) (arg : Setting) (ret : Bool)
deriving DecidableEq, Repr

/-- Result of one library operation: the new global state, the boolean the
operation returns, and the trace of events it performed. -/
structure R where
  st : SState
  ok : Bool
  tr : List Ev
deriving DecidableEq, Repr

/-- settings[i] for a C int index: none when out of range (the source does
not range-check; out-of-range access is undefined behaviour there). -/
def getAt (l : List Setting) (i : Int) : Option Setting :=
  if 0 ≤ i then l[i.toNat]? else none

/-- settings[i] = st for a C int index; no-op when out of range. -/
def setAt (l : List Setting) (i : Int) (st : Setting) : List Setting :=
  if 0 ≤ i then l.set i.toNat st else l

/-- Whether settings[i] is a separator row (NULL name) as tested by the
do-while loop of scrollSetting. -/
def isNullAt (l : List Setting) (i : Int) : Bool :=
  (getAt l i).elim false fun st => st.name.isNone

/-- The callback invocations of a trace, in order. -/
def cbCalls (tr : List Ev) : List (Nat × Setting × Bool) :=
  tr.filterMap fun e =>
    match e with
    | Ev.call i a r => some (i, a, r)
    | _ => none

/-- strlen of the text passed to printAt (0 for the NULL text case). -/
def textLen (t : Option String) : Int :=
  match t with
  | some u => (u.length : Int)
  | none => 0

/-- printAt of settings.cpp.  It always returns true; when canUseDisplay is
false it skips the hardware calls but the write call itself (recorded as the
event) has still been executed by the caller. -/
def printAt (x y : Int) (text : Option String) (clean : Bool) (fg bg leading : Int) :
    Bool × List Ev :=
  (true, [Ev.draw x y text clean fg bg leading])

/-- displayName of settings.cpp: prints the name column of setting i.
The none case models the defensive settings == NULL check. -/
def displayName (s : SState) (i row : Int) (clean : Bool) (fg bg : Int) : Bool × List Ev :=
  match getAt s.settings i with
  | none => (false, [])
  | some st => printAt 2 row st.name clean fg bg (0 : Int)

/-- displayValue of settings.cpp: prints values[newValue] of setting i,
right-padded to the row width. -/
def displayValue (s : SState) (i row : Int) (clean : Bool) (fg bg : Int) : Bool × List Ev :=
  match getAt s.settings i with
  | none => (false, [])
  | some st =>
      let text := if 0 ≤ st.newValue then st.values[st.newValue.toNat]? else none
      printAt 19 row text clean fg bg (TFT_CHARS - 19 - textLen text)

/-- highlightValue of settings.cpp: redraws the value cell of the selected
setting; WHITE when browsing, BLUE when editing with newValue equal to
currentValue, RED when editing with newValue different. -/
def highlightValue (s : SState) : Bool × List Ev :=
  match getAt s.settings s.currentSetting with
  | none => (false, [])
  | some st =>
      let color := if s.editing then (if st.currentValue = st.newValue then BLUE else RED)
        else WHITE
      displayValue s s.currentSetting (s.currentSetting - s.topSetting) true color BLACK

/-- The 26-space blank row drawn for separator settings. -/
def blankRow : String := "                          "

/-- displaySetting of settings.cpp: one row, name plus value for a named
setting, a blank row for a separator (whose printAt result is discarded). -/
def displaySetting (s : SState) (i row : Int) (clean : Bool) (fg bg : Int) : Bool × List Ev :=
  match getAt s.settings i with
  | none => (false, [])
  | some st =>
      match st.name with
      | some _ =>
          let p1 := displayName s i row clean fg bg
          if p1.1 then
            let p2 := displayValue s i row clean fg bg
            (p2.1, p1.2 ++ p2.2)
          else (false, p1.2)
      | none =>
          let p := printAt 0 row (some blankRow) true WHITE BLACK 0
          (true, p.2)

/-- The for loop of displaySettings: i counts from 0 while i < n and the
accumulated result is still true (the source condition i < n && result). -/
def dsLoop (s : SState) (first : Int) : Nat → Int → Bool → Bool × List Ev
  | 0, _, result => (result, [])
  | k + 1, i, result =>
      if result then
        let p := displaySetting s (first + i) i false WHITE BLACK
        let rest := dsLoop s first k (i + 1) (result && p.1)
        (rest.1, p.2 ++ rest.2)
      else (result, [])

/-- displaySettings of settings.cpp: returns false at once when the library
does not own the display (topSetting then stays unchanged); otherwise clears
the screen, draws up to TFT_LINES settings from first, and sets topSetting. -/
def displaySettings (s : SState) (first : Int) : R :=
  if s.canUseDisplay = false then ⟨s, false, []⟩
  else
    let n : Int := min ((s.settings.length : Int) - first) TFT_LINES
    let p := dsLoop s first n.toNat 0 true
    ⟨{ s with topSetting := first }, p.1, Ev.fillScreen :: p.2⟩

/-- selectSetting of settings.cpp: draws or clears the cursor marker at the
row of the selected setting. -/
def selectSetting (s : SState) (mark : Bool) : Bool × List Ev :=
  printAt 0 (s.currentSetting - s.topSetting) (some (if mark then ">" else " ")) true WHITE BLACK 0

/-- settingsDisplayOn of settings.cpp (the selectSetting result is
discarded there). -/
def settingsDisplayOn (s : SState) : R :=
  let s1 := { s with canUseDisplay := true }
  let r := displaySettings s1 s1.topSetting
  let p := selectSetting r.st true
  ⟨r.st, r.ok, r.tr ++ p.2⟩

/-- settingsDisplayOff of settings.cpp: releases the display and clears the
editing flag, with no commit or revert of pending values. -/
def settingsDisplayOff (s : SState) : R :=
  ⟨{ s with canUseDisplay := false, editing := false }, true, []⟩

/-- createSetting of settings.cpp: appends a setting unless the registry is
full; newValue starts equal to currentValue.  can0 models the uninitialized
can field of the freshly malloc-ed struct. -/
def createSetting (s : SState) (name : Option String) (values : List String)
    (nValues currentValue : Int) (liveUpdate can0 : Bool) : SState × Bool :=
  if (s.settings.length : Int) = s.maxSettings then (s, false)
  else
    ({ s with settings := s.settings ++
        [{ name := name, values := values, nValues := nValues,
           currentValue := currentValue, newValue := currentValue,
           liveUpdate := liveUpdate, can := can0 }] }, true)

/-- The global state right after a successful initSettings(n, tft). -/
def initSettings (n : Int) : SState :=
  { settings := [], maxSettings := n, currentSetting := 0, topSetting := 0,
    editing := false, canUseDisplay := false }

/-- scrollValue of settings.cpp: moves newValue of the selected setting by d
inside [0, nValues-1]; on an actual change redraws the value cell and, for a
liveUpdate setting, invokes the callback on the updated setting and stores
its result in can. -/
def scrollValue (cb : Nat → Setting → Bool) (s : SState) (d : Int) : R :=
  match getAt s.settings s.currentSetting with
  | none => ⟨s, false, []⟩
  | some st =>
      let currentNewValue := st.newValue
      let newNewValue :=
        if d > 0 ∧ currentNewValue < st.nValues - 1 then currentNewValue + d
        else if d < 0 ∧ currentNewValue > 0 then currentNewValue + d
        else currentNewValue
      if newNewValue ≠ currentNewValue then
        let st1 := { st with newValue := newNewValue }
        let s1 := { s with settings := setAt s.settings s.currentSetting st1 }
        let p := highlightValue s1
        if st1.liveUpdate then
          let acc := cb s.currentSetting.toNat st1
          let s2 := { s1 with
            settings := setAt s1.settings s.currentSetting { st1 with can := acc } }
          ⟨s2, p.1, p.2 ++ [Ev.call s.currentSetting.toNat st1 acc]⟩
        else ⟨s1, p.1, p.2⟩
      else ⟨s, true, []⟩

/-- The do-while search of scrollSetting: step by d while the boundary guard
allows it, skipping separator (NULL-name) rows; none models the return false
of the source (clamped, or only separators remain in that direction).  Fuel
settings.length + 1 is enough for the ±1 steps the library uses. -/
def seek (l : List Setting) (d : Int) : Nat → Int → Option Int
  | 0, _ => none
  | fuel + 1, cur =>
      if d > 0 ∧ cur < (l.length : Int) - 1 then
        let nxt := cur + d
        if isNullAt l nxt then seek l d fuel nxt else some nxt
      else if d < 0 ∧ cur > 0 then
        let nxt := cur + d
        if isNullAt l nxt then seek l d fuel nxt else some nxt
      else none

/-- scrollSetting of settings.cpp: move the selection to the nearest
selectable setting in direction d; scroll the visible window when the new
selection falls outside it.  Both selectSetting results are discarded by the
source; the operation result is the displaySettings result when a window
scroll was needed, true otherwise, and false when clamped. -/
def scrollSetting (s : SState) (d : Int) : R :=
  match seek s.settings d (s.settings.length + 1) s.currentSetting with
  | none => ⟨s, false, []⟩
  | some newSetting =>
      if newSetting ≠ s.currentSetting then
        let p1 := selectSetting s false
        let s1 := { s with currentSetting := newSetting }
        if s1.currentSetting < s1.topSetting then
          let r := displaySettings s1 s1.currentSetting
          let p2 := selectSetting r.st true
          ⟨r.st, r.ok, p1.2 ++ r.tr ++ p2.2⟩
        else if s1.currentSetting ≥ s1.topSetting + TFT_LINES then
          let r := displaySettings s1 (s1.currentSetting - TFT_LINES + 1)
          let p2 := selectSetting r.st true
          ⟨r.st, r.ok, p1.2 ++ r.tr ++ p2.2⟩
        else
          let p2 := selectSetting s1 true
          ⟨s1, true, p1.2 ++ p2.2⟩
      else ⟨s, true, []⟩

/-- settingsUp of settings.cpp. -/
def settingsUp (cb : Nat → Setting → Bool) (s : SState) : R :=
  if s.editing then scrollValue cb s 1 else scrollSetting s 1

/-- settingsDown of settings.cpp. -/
def settingsDown (cb : Nat → Setting → Bool) (s : SState) : R :=
  if s.editing then scrollValue cb s (-1) else scrollSetting s (-1)

/-- settingsOK of settings.cpp.  When editing: commit the pending value (for
a liveUpdate setting using the stored can, otherwise invoking the callback
when the pending value differs), then toggle editing (its local result is
never falsified, so the toggle always happens) and redraw the value cell
(that redraw result is discarded).  When browsing: just enter editing. -/
def settingsOK (cb : Nat → Setting → Bool) (s : SState) : R :=
  if s.editing then
    match getAt s.settings s.currentSetting with
    | none =>
        let s1 := { s with editing := !s.editing }
        let p := highlightValue s1
        ⟨s1, true, p.2⟩
    | some st =>
        let pair :=
          if st.newValue ≠ st.currentValue then
            if st.liveUpdate then
              (if st.can then setAt s.settings s.currentSetting
                  { st with currentValue := st.newValue }
               else setAt s.settings s.currentSetting
                  { st with newValue := st.currentValue }, ([] : List Ev))
            else
              let acc := cb s.currentSetting.toNat st
              (if acc then setAt s.settings s.currentSetting
                  { st with currentValue := st.newValue }
               else setAt s.settings s.currentSetting
                  { st with newValue := st.currentValue },
               [Ev.call s.currentSetting.toNat st acc])
          else (s.settings, ([] : List Ev))
        let s1 := { s with settings := pair.1, editing := !s.editing }
        let p := highlightValue s1
        ⟨s1, true, pair.2 ++ p.2⟩
  else
    let s1 := { s with editing := !s.editing }
    let p := highlightValue s1
    ⟨s1, true, p.2⟩

/-- resetNewValue of settings.cpp: revert newValue to currentValue; when the
setting is liveUpdate, had a divergent pending value and that value had been
accepted (can), re-invoke the callback on the reverted setting, discarding
its result. -/
def resetNewValue (cb : Nat → Setting → Bool) (s : SState) : R :=
  match getAt s.settings s.currentSetting with
  | none => ⟨s, true, []⟩
  | some st =>
      let resetLive := st.liveUpdate = true ∧ st.can = true ∧ st.newValue ≠ st.currentValue
      let st1 := { st with newValue := st.currentValue }
      let s1 := { s with settings := setAt s.settings s.currentSetting st1 }
      if resetLive then
        ⟨s1, true, [Ev.call s.currentSetting.toNat st1 (cb s.currentSetting.toNat st1)]⟩
      else ⟨s1, true, []⟩

/-- settingsStop of settings.cpp: when editing, revert the pending value;
note the source never clears the editing flag here. -/
def settingsStop (cb : Nat → Setting → Bool) (s : SState) : R :=
  if s.editing then resetNewValue cb s else ⟨s, true, []⟩

/-- The public operations of the library, for reachability statements. -/
inductive Op where
  | create (name : Option String) (values : List String) (nValues currentValue : Int)
      (liveUpdate can0 : Bool)
  | displayOn
  | displayOff
  | up
  | down
  | ok
  | stop
deriving DecidableEq, Repr

/-- One public operation, projected to the state it leaves behind. -/
def step (cb : Nat → Setting → Bool) (s : SState) : Op → SState
  | Op.create n v nv c lu c0 => (createSetting s n v nv c lu c0).1
  | Op.displayOn => (settingsDisplayOn s).st
  | Op.displayOff => (settingsDisplayOff s).st
  | Op.up => (settingsUp cb s).st
  | Op.down => (settingsDown cb s).st
  | Op.ok => (settingsOK cb s).st
  | Op.stop => (settingsStop cb s).st

/-- Run a sequence of public operations. -/
def run (cb : Nat → Setting → Bool) (s : SState) (l : List Op) : SState :=
  l.foldl (step cb) s

/-- True when every displayDeactivate in the sequence happens while not
editing (evaluated along the run from s). -/
def noOffWhileEditing (cb : Nat → Setting → Bool) : SState → List Op → Bool
  | _, [] => true
  | s, op :: rest =>
      (match op with
       | Op.displayOff => !s.editing
       | _ => true) && noOffWhileEditing cb (step cb s op) rest

/-- Every setting whose pending value may lawfully diverge is the selected
one while editing; all others have newValue = currentValue. -/
def Inv (s : SState) : Prop :=
  ∀ (i : Nat) (st : Setting), s.settings[i]? = some st →
    st.newValue = st.currentValue ∨ (s.editing = true ∧ (i : Int) = s.currentSetting)

/-- Iterated selection moves in direction d; none when some step was clamped
(scrollSetting returned false without moving). -/
def navIter (l : List Setting) (d : Int) : Nat → Int → Option Int
  | 0, c => some c
  | k + 1, c =>
      match seek l d (l.length + 1) c with
      | some c2 => navIter l d k c2
      | none => none

/-- The selection is either the initial index 0 or a valid non-separator
index; true in every reachable state. -/
def navInvB (s : SState) : Bool :=
  s.currentSetting == 0 ||
    (decide (0 ≤ s.currentSetting) && decide (s.currentSetting < (s.settings.length : Int)) &&
      !isNullAt s.settings s.currentSetting)

/-- The boolean a browsing-mode up or down actually returns: false when
clamped, otherwise false only when a window scroll was needed and the
display was not owned. -/
def navResult (s : SState) (d : Int) : Bool :=
  match seek s.settings d (s.settings.length + 1) s.currentSetting with
  | none => false
  | some j =>
      if j < s.topSetting ∨ j ≥ s.topSetting + TFT_LINES then s.canUseDisplay else true

/-- The logical (registry and mode) part of the state named by the
error-handling policy: settings, selectedIndex and the editing flag. -/
def lproj (s : SState) : List Setting × Int × Bool :=
  (s.settings, s.currentSetting, s.editing)

/-- An always-accepting callback environment, used in concrete runs. -/
def cbTrue : Nat → Setting → Bool := fun _ _ => true

/-- A sample liveUpdate setting mid-edit (newValue differs from
currentValue and is neither at the first nor at the last option). -/
def stW : Setting :=
  { name := some "A", values := ["a", "b", "c"], nValues := 3,
    currentValue := 0, newValue := 1, liveUpdate := true, can := true }

/-- stW with liveUpdate off. -/
def stWF : Setting := { stW with liveUpdate := false }

/-- A one-setting state in Editing mode on stW. -/
def sEditW : SState :=
  { settings := [stW], maxSettings := 1, currentSetting := 0, topSetting := 0,
    editing := true, canUseDisplay := true }

/-- A one-setting state in Editing mode on stWF. -/
def sEditWF : SState :=
  { settings := [stWF], maxSettings := 1, currentSetting := 0, topSetting := 0,
    editing := true, canUseDisplay := true }

/-- A one-setting browsing state with the display owned: any up or down is
clamped there, yet no rendering is performed. -/
def sOne : SState :=
  { settings := [stWF], maxSettings := 1, currentSetting := 0, topSetting := 0,
    editing := false, canUseDisplay := true }

/-- A browsing state with a named setting, a separator and a named setting,
for navigation round trips. -/
def sNav : SState :=
  { settings := [stWF, { stWF with name := none }, { stWF with name := some "B" }],
    maxSettings := 3, currentSetting := 0, topSetting := 0,
    editing := false, canUseDisplay := true }

/-- The setting produced by createSetting with name A, options a and b,
current index 0, no live update, and a false initial can field. -/
def stC1 : Setting :=
  { name := some "A", values := ["a", "b"], nValues := 2, currentValue := 0,
    newValue := 0, liveUpdate := false, can := false }

/-- The relation claimed by the render-failure policy between the outcome
of one event when every rendering operation fails (rOff) and when every one
succeeds (rOn): same registry and mode state, same callback invocations,
and the failing run only lacks the internal writes (mid) of the failed
rendering call, still executing the same number of later writes, with the
failure AND-accumulated into the returned boolean. -/
def C9P (rOff rOn : R) : Prop :=
  lproj rOff.st = lproj rOn.st ∧
  cbCalls rOff.tr = cbCalls rOn.tr ∧
  ∃ pre mid postOff postOn,
    rOn.tr = pre ++ mid ++ postOn ∧
    rOff.tr = pre ++ postOff ∧
    postOff.length = postOn.length ∧
    rOff.ok = (rOn.ok && mid.isEmpty)

/-! Basic facts about indexing the registry. -/

theorem getAt_some {l : List Setting} {i : Int} {st : Setting} (h : getAt l i = some st) :
    0 ≤ i ∧ i.toNat < l.length ∧ l[i.toNat]? = some st := by
  unfold getAt at h
  split at h
  · rename_i h0
    refine ⟨h0, ?_, h⟩
    by_contra hlen
    rw [List.getElem?_eq_none (Nat.le_of_not_lt hlen)] at h
    exact Option.noConfusion h
  · exact Option.noConfusion h

theorem setAt_getElem? (l : List Setting) (c : Int) (st : Setting) (i : Nat) :
    (setAt l c st)[i]? = if c = (i : Int) ∧ i < l.length then some st else l[i]? := by
  unfold setAt
  by_cases h0 : 0 ≤ c
  · rw [if_pos h0, List.getElem?_set]
    by_cases hc : c = (i : Int)
    · have ht : c.toNat = i := by omega
      rw [ht, if_pos rfl]
      by_cases hl : i < l.length
      · rw [if_pos hl, if_pos ⟨hc, hl⟩]
      · rw [if_neg hl, if_neg (fun hx => hl hx.2), List.getElem?_eq_none (Nat.le_of_not_lt hl)]
    · have ht : c.toNat ≠ i := by omega
      rw [if_neg ht, if_neg (fun hx => hc hx.1)]
  · rw [if_neg h0]
    have hne : ¬(c = (i : Int) ∧ i < l.length) := by
      intro hx
      exact h0 (hx.1.symm ▸ Int.natCast_nonneg i)
    rw [if_neg hne]

theorem length_setAt (l : List Setting) (c : Int) (st : Setting) :
    (setAt l c st).length = l.length := by
  unfold setAt
  split <;> simp

theorem getAt_setAt_self {l : List Setting} {c : Int} {st0 : Setting} (st : Setting)
    (h : getAt l c = some st0) : getAt (setAt l c st) c = some st := by
  obtain ⟨h0, hlt, _⟩ := getAt_some h
  unfold getAt
  rw [if_pos h0, setAt_getElem?]
  have hc : c = ((c.toNat : Nat) : Int) := by omega
  rw [if_pos ⟨hc, hlt⟩]

theorem getAt_setAt_other {l : List Setting} {c : Int} (st : Setting) {j : Int} (h : j ≠ c) :
    getAt (setAt l c st) j = getAt l j := by
  unfold getAt
  by_cases h0 : 0 ≤ j
  · rw [if_pos h0, if_pos h0, setAt_getElem?]
    have hne : ¬(c = (j.toNat : Int) ∧ j.toNat < l.length) := by
      intro hx
      exact h (by omega)
    rw [if_neg hne]
  · rw [if_neg h0, if_neg h0]

theorem setAt_setAt (l : List Setting) (c : Int) (a b : Setting) :
    setAt (setAt l c a) c b = setAt l c b := by
  unfold setAt
  by_cases h0 : 0 ≤ c <;> simp [h0, List.set_set]

/-! State-shape lemmas for the display and navigation helpers. -/

theorem displaySettings_st (s : SState) (f : Int) :
    (displaySettings s f).st =
      if s.canUseDisplay = true then { s with topSetting := f } else s := by
  cases hc : s.canUseDisplay <;> simp [displaySettings, hc]

theorem settingsDisplayOn_st (s : SState) :
    (settingsDisplayOn s).st = { s with canUseDisplay := true } := by
  unfold settingsDisplayOn
  rw [displaySettings_st]
  simp

theorem scrollSetting_st (s : SState) (d : Int) :
    ∃ t, (scrollSetting s d).st =
      { s with
        currentSetting :=
          (seek s.settings d (s.settings.length + 1) s.currentSetting).getD s.currentSetting,
        topSetting := t } := by
  unfold scrollSetting
  split
  · rename_i hk
    rw [hk]
    exact ⟨s.topSetting, rfl⟩
  · rename_i j hk
    rw [hk, Option.getD_some]
    by_cases hj : j ≠ s.currentSetting
    · rw [if_pos hj]
      by_cases h1 : j < s.topSetting
      · rw [if_pos h1]
        simp only [displaySettings_st]
        cases hc : s.canUseDisplay <;> simp [hc]
      · rw [if_neg h1]
        by_cases h2 : j ≥ s.topSetting + TFT_LINES
        · rw [if_pos h2]
          simp only [displaySettings_st]
          cases hc : s.canUseDisplay <;> simp [hc]
        · rw [if_neg h2]
          exact ⟨s.topSetting, rfl⟩
    · rw [if_neg hj]
      rw [not_not] at hj
      refine ⟨s.topSetting, ?_⟩
      rw [hj]

theorem scrollSetting_settings (s : SState) (d : Int) :
    ((scrollSetting s d).st).settings = s.settings := by
  obtain ⟨t, h⟩ := scrollSetting_st s d
  rw [h]

theorem scrollSetting_editing (s : SState) (d : Int) :
    ((scrollSetting s d).st).editing = s.editing := by
  obtain ⟨t, h⟩ := scrollSetting_st s d
  rw [h]

theorem scrollSetting_cur (s : SState) (d : Int) :
    ((scrollSetting s d).st).currentSetting =
      (seek s.settings d (s.settings.length + 1) s.currentSetting).getD s.currentSetting := by
  obtain ⟨t, h⟩ := scrollSetting_st s d
  rw [h]

theorem scrollValue_shape (cb : Nat → Setting → Bool) (s : SState) (d : Int) :
    ((scrollValue cb s d).st).editing = s.editing ∧
    ((scrollValue cb s d).st).currentSetting = s.currentSetting ∧
    ((scrollValue cb s d).st).topSetting = s.topSetting ∧
    ((scrollValue cb s d).st).canUseDisplay = s.canUseDisplay ∧
    ((scrollValue cb s d).st).maxSettings = s.maxSettings := by
  unfold scrollValue
  split
  · exact ⟨rfl, rfl, rfl, rfl, rfl⟩
  · dsimp only
    split_ifs <;> exact ⟨rfl, rfl, rfl, rfl, rfl⟩

theorem scrollValue_other (cb : Nat → Setting → Bool) (s : SState) (d : Int) (i : Nat)
    (hi : (i : Int) ≠ s.currentSetting) :
    ((scrollValue cb s d).st).settings[i]? = s.settings[i]? := by
  have key : ∀ (l : List Setting) (st : Setting),
      (setAt l s.currentSetting st)[i]? = l[i]? := by
    intro l st
    rw [setAt_getElem?]
    exact if_neg fun hx => hi hx.1.symm
  unfold scrollValue
  split
  · rfl
  · dsimp only
    split_ifs <;> simp only [setAt_setAt, key]

theorem scrollValue_sel (cb : Nat → Setting → Bool) (s : SState) (d : Int) (i : Nat)
    (st : Setting) (hi : (i : Int) = s.currentSetting) (hv : s.settings[i]? = some st) :
    ∃ st2, ((scrollValue cb s d).st).settings[i]? = some st2 ∧
      st2.currentValue = st.currentValue ∧ st2.name = st.name := by
  have hlen : i < s.settings.length := by
    by_contra hlen
    rw [List.getElem?_eq_none (Nat.le_of_not_lt hlen)] at hv
    exact Option.noConfusion hv
  have hg : getAt s.settings s.currentSetting = some st := by
    rw [← hi]
    unfold getAt
    rw [if_pos (Int.natCast_nonneg i)]
    simpa using hv
  have key : ∀ (l : List Setting) (st1 : Setting), l.length = s.settings.length →
      (setAt l s.currentSetting st1)[i]? = some st1 := by
    intro l st1 hl
    rw [setAt_getElem?, if_pos ⟨hi.symm, hl ▸ hlen⟩]
  unfold scrollValue
  rw [hg]
  dsimp only
  split_ifs
  all_goals first
    | exact ⟨st, hv, rfl, rfl⟩
    | (rw [setAt_setAt]
       exact ⟨_, key _ _ rfl, rfl, rfl⟩)
    | exact ⟨_, key _ _ rfl, rfl, rfl⟩

theorem resetNewValue_st (cb : Nat → Setting → Bool) (s : SState) :
    (resetNewValue cb s).st = s ∨
    ∃ st, getAt s.settings s.currentSetting = some st ∧
      (resetNewValue cb s).st =
        { s with settings :=
            setAt s.settings s.currentSetting { st with newValue := st.currentValue } } := by
  unfold resetNewValue
  split
  · exact Or.inl rfl
  · rename_i st hg
    dsimp only
    split_ifs <;> exact Or.inr ⟨st, hg, rfl⟩

theorem cbCalls_append (a b : List Ev) : cbCalls (a ++ b) = cbCalls a ++ cbCalls b :=
  List.filterMap_append a b _

theorem cbCalls_highlightValue (s : SState) : cbCalls (highlightValue s).2 = [] := by
  unfold highlightValue
  split
  · rfl
  · rename_i st heq
    unfold displayValue
    rw [heq]
    rfl

theorem highlightValue_fst {s : SState} {st : Setting}
    (hget : getAt s.settings s.currentSetting = some st) : (highlightValue s).1 = true := by
  unfold highlightValue
  rw [hget]
  dsimp only
  unfold displayValue
  rw [hget]
  rfl

theorem settingsUp_editing (cb : Nat → Setting → Bool) (s : SState) (hed : s.editing = true) :
    settingsUp cb s = scrollValue cb s 1 := by
  unfold settingsUp
  rw [hed]
  rfl

theorem settingsUp_browsing (cb : Nat → Setting → Bool) (s : SState) (hed : s.editing = false) :
    settingsUp cb s = scrollSetting s 1 := by
  unfold settingsUp
  rw [hed]
  rfl

theorem settingsDown_editing (cb : Nat → Setting → Bool) (s : SState) (hed : s.editing = true) :
    settingsDown cb s = scrollValue cb s (-1) := by
  unfold settingsDown
  rw [hed]
  rfl

theorem settingsDown_browsing (cb : Nat → Setting → Bool) (s : SState) (hed : s.editing = false) :
    settingsDown cb s = scrollSetting s (-1) := by
  unfold settingsDown
  rw [hed]
  rfl

theorem settingsStop_editing (cb : Nat → Setting → Bool) (s : SState) (hed : s.editing = true) :
    settingsStop cb s = resetNewValue cb s := by
  unfold settingsStop
  rw [hed]
  rfl

theorem settingsStop_browsing (cb : Nat → Setting → Bool) (s : SState) (hed : s.editing = false) :
    settingsStop cb s = ⟨s, true, []⟩ := by
  unfold settingsStop
  rw [hed]
  rfl

theorem settingsOK_browsing (cb : Nat → Setting → Bool) (s : SState) (hed : s.editing = false) :
    settingsOK cb s =
      ⟨{ s with editing := !s.editing }, true, (highlightValue { s with editing := !s.editing }).2⟩ := by
  unfold settingsOK
  rw [hed]
  rfl

theorem settingsOK_editing (cb : Nat → Setting → Bool) (s : SState) :
    ((settingsOK cb s).st).editing = !s.editing := by
  unfold settingsOK
  split_ifs with hed
  · split
    · rfl
    · dsimp only
  · rfl

theorem scrollValue_eval_change (cb : Nat → Setting → Bool) (s : SState) (d : Int)
    {st : Setting} (hget : getAt s.settings s.currentSetting = some st)
    (hd : (d > 0 ∧ st.newValue < st.nValues - 1) ∨ (d < 0 ∧ st.newValue > 0)) :
    scrollValue cb s d =
      (let st1 := { st with newValue := st.newValue + d }
       let s1 := { s with settings := setAt s.settings s.currentSetting st1 }
       let p := highlightValue s1
       if st.liveUpdate then
         let acc := cb s.currentSetting.toNat st1
         ⟨{ s with settings := setAt s.settings s.currentSetting { st1 with can := acc } }, p.1,
           p.2 ++ [Ev.call s.currentSetting.toNat st1 acc]⟩
       else ⟨s1, p.1, p.2⟩) := by
  unfold scrollValue
  rw [hget]
  dsimp only
  have hnn : (if d > 0 ∧ st.newValue < st.nValues - 1 then st.newValue + d
      else if d < 0 ∧ st.newValue > 0 then st.newValue + d else st.newValue) = st.newValue + d := by
    rcases hd with ⟨hd0, hlt⟩ | ⟨hd0, hgt⟩
    · exact if_pos ⟨hd0, hlt⟩
    · rw [if_neg (show ¬(d > 0 ∧ st.newValue < st.nValues - 1) by omega)]
      exact if_pos ⟨hd0, hgt⟩
  rw [hnn]
  have hne : st.newValue + d ≠ st.newValue := by
    rcases hd with ⟨hd0, h⟩ | ⟨hd0, h⟩ <;> omega
  rw [if_pos hne]
  split_ifs with hlv
  · rw [setAt_setAt]
  · rfl

theorem scrollValue_eval_noop (cb : Nat → Setting → Bool) (s : SState) (d : Int)
    {st : Setting} (hget : getAt s.settings s.currentSetting = some st)
    (h1 : ¬(d > 0 ∧ st.newValue < st.nValues - 1)) (h2 : ¬(d < 0 ∧ st.newValue > 0)) :
    scrollValue cb s d = ⟨s, true, []⟩ := by
  unfold scrollValue
  rw [hget]
  dsimp only
  rw [if_neg h1, if_neg h2, if_neg (show ¬(st.newValue ≠ st.newValue) from fun hx => hx rfl)]

/-- Claim C6: while editing, up and down move the pending index by plus or
minus one clamped to [0, len(options)-1]; at the last option up is a no-op
and at option 0 down is a no-op (no wraparound). -/
theorem c6_value_scroll_clamped (cb : Nat → Setting → Bool) (s : SState) (st : Setting)
    (hed : s.editing = true) (hget : getAt s.settings s.currentSetting = some st)
    (hlo : 0 ≤ st.newValue) (hhi : st.newValue ≤ st.nValues - 1) :
    (∃ st1, getAt ((settingsUp cb s).st).settings s.currentSetting = some st1 ∧
      st1.newValue = min (st.newValue + 1) (st.nValues - 1)) ∧
    (∃ st1, getAt ((settingsDown cb s).st).settings s.currentSetting = some st1 ∧
      st1.newValue = max (st.newValue - 1) 0) ∧
    (st.newValue = st.nValues - 1 → (settingsUp cb s).st = s) ∧
    (st.newValue = 0 → (settingsDown cb s).st = s) := by
  rw [settingsUp_editing cb s hed, settingsDown_editing cb s hed]
  refine ⟨?_, ?_, ?_, ?_⟩
  · by_cases h : st.newValue < st.nValues - 1
    · rw [scrollValue_eval_change cb s 1 hget (Or.inl ⟨by norm_num, h⟩)]
      dsimp only
      split_ifs with hlv
      · exact ⟨_, getAt_setAt_self _ hget, by dsimp only; omega⟩
      · exact ⟨_, getAt_setAt_self _ hget, by dsimp only; omega⟩
    · rw [scrollValue_eval_noop cb s 1 hget (fun hx => h hx.2) (by omega)]
      exact ⟨st, hget, by omega⟩
  · by_cases h : st.newValue > 0
    · rw [scrollValue_eval_change cb s (-1) hget (Or.inr ⟨by norm_num, h⟩)]
      dsimp only
      split_ifs with hlv
      · exact ⟨_, getAt_setAt_self _ hget, by dsimp only; omega⟩
      · exact ⟨_, getAt_setAt_self _ hget, by dsimp only; omega⟩
    · rw [scrollValue_eval_noop cb s (-1) hget (by omega) (fun hx => h hx.2)]
      exact ⟨st, hget, by omega⟩
  · intro hb
    rw [scrollValue_eval_noop cb s 1 hget (by omega) (by omega)]
  · intro hb
    rw [scrollValue_eval_noop cb s (-1) hget (by omega) (by omega)]

theorem c6_witness :
    sEditW.editing = true ∧ getAt sEditW.settings sEditW.currentSetting = some stW ∧
    0 ≤ stW.newValue ∧ stW.newValue ≤ stW.nValues - 1 ∧
    ((∃ st1, getAt ((settingsUp cbTrue sEditW).st).settings sEditW.currentSetting = some st1 ∧
        st1.newValue = min (stW.newValue + 1) (stW.nValues - 1)) ∧
      (∃ st1, getAt ((settingsDown cbTrue sEditW).st).settings sEditW.currentSetting = some st1 ∧
        st1.newValue = max (stW.newValue - 1) 0) ∧
      (stW.newValue = stW.nValues - 1 → (settingsUp cbTrue sEditW).st = sEditW) ∧
      (stW.newValue = 0 → (settingsDown cbTrue sEditW).st = sEditW)) :=
  ⟨rfl, by decide, by decide, by decide,
    c6_value_scroll_clamped cbTrue sEditW stW rfl (by decide) (by decide) (by decide)⟩

theorem settingsOK_eval_live (cb : Nat → Setting → Bool) (s : SState) (st : Setting)
    (hed : s.editing = true) (hget : getAt s.settings s.currentSetting = some st)
    (hne : st.newValue ≠ st.currentValue) (hlu : st.liveUpdate = true) :
    settingsOK cb s =
      (let s1 := { s with
          settings := setAt s.settings s.currentSetting
            (if st.can then { st with currentValue := st.newValue }
             else { st with newValue := st.currentValue }),
          editing := !s.editing }
       ⟨s1, true, (highlightValue s1).2⟩) := by
  unfold settingsOK
  rw [if_pos hed, hget]
  dsimp only
  rw [if_pos hne, if_pos hlu]
  rw [apply_ite (setAt s.settings s.currentSetting)]
  rfl

theorem settingsOK_eval_defer (cb : Nat → Setting → Bool) (s : SState) (st : Setting)
    (hed : s.editing = true) (hget : getAt s.settings s.currentSetting = some st)
    (hne : st.newValue ≠ st.currentValue) (hlu : st.liveUpdate = false) :
    settingsOK cb s =
      (let acc := cb s.currentSetting.toNat st
       let s1 := { s with
          settings := setAt s.settings s.currentSetting
            (if acc then { st with currentValue := st.newValue }
             else { st with newValue := st.currentValue }),
          editing := !s.editing }
       ⟨s1, true, Ev.call s.currentSetting.toNat st acc :: (highlightValue s1).2⟩) := by
  unfold settingsOK
  rw [if_pos hed, hget]
  dsimp only
  rw [if_pos hne, if_neg (show ¬st.liveUpdate = true by rw [hlu]; exact Bool.false_ne_true)]
  rw [apply_ite (setAt s.settings s.currentSetting)]
  rfl

theorem settingsOK_eval_eq (cb : Nat → Setting → Bool) (s : SState) (st : Setting)
    (hed : s.editing = true) (hget : getAt s.settings s.currentSetting = some st)
    (heq : st.newValue = st.currentValue) :
    settingsOK cb s =
      ⟨{ s with editing := !s.editing }, true,
        (highlightValue { s with editing := !s.editing }).2⟩ := by
  unfold settingsOK
  rw [if_pos hed, hget]
  dsimp only
  rw [if_neg (show ¬st.newValue ≠ st.currentValue from fun hx => hx heq)]
  rfl

theorem resetNewValue_eval (cb : Nat → Setting → Bool) (s : SState) (st : Setting)
    (hget : getAt s.settings s.currentSetting = some st) :
    resetNewValue cb s =
      (let st1 := { st with newValue := st.currentValue }
       let s1 := { s with settings := setAt s.settings s.currentSetting st1 }
       if st.liveUpdate = true ∧ st.can = true ∧ st.newValue ≠ st.currentValue then
         ⟨s1, true, [Ev.call s.currentSetting.toNat st1 (cb s.currentSetting.toNat st1)]⟩
       else ⟨s1, true, []⟩) := by
  unfold resetNewValue
  rw [hget]

/-- Claim C2: for a liveUpdate setting being edited, every up or down that
actually changes the pending index invokes the callback exactly once on the
setting with the new pending index, stores the returned boolean in can, and
does not roll back; commit with a divergent pending index invokes no
callback and either promotes the pending index (can true) or reverts it
(can false), then returns to browsing. -/
theorem c2_live_semantics (cb : Nat → Setting → Bool) (s : SState) (st : Setting)
    (hed : s.editing = true) (hget : getAt s.settings s.currentSetting = some st)
    (hlu : st.liveUpdate = true) :
    (st.newValue < st.nValues - 1 →
      cbCalls (settingsUp cb s).tr =
        [(s.currentSetting.toNat, { st with newValue := st.newValue + 1 },
          cb s.currentSetting.toNat { st with newValue := st.newValue + 1 })] ∧
      getAt ((settingsUp cb s).st).settings s.currentSetting =
        some { st with
                newValue := st.newValue + 1,
                can := cb s.currentSetting.toNat { st with newValue := st.newValue + 1 } }) ∧
    (0 < st.newValue →
      cbCalls (settingsDown cb s).tr =
        [(s.currentSetting.toNat, { st with newValue := st.newValue - 1 },
          cb s.currentSetting.toNat { st with newValue := st.newValue - 1 })] ∧
      getAt ((settingsDown cb s).st).settings s.currentSetting =
        some { st with
                newValue := st.newValue - 1,
                can := cb s.currentSetting.toNat { st with newValue := st.newValue - 1 } }) ∧
    (st.newValue ≠ st.currentValue →
      cbCalls (settingsOK cb s).tr = [] ∧
      getAt ((settingsOK cb s).st).settings s.currentSetting =
        some (if st.can then { st with currentValue := st.newValue }
              else { st with newValue := st.currentValue })) ∧
    ((settingsOK cb s).st).editing = false := by
  refine ⟨?_, ?_, ?_, ?_⟩
  · intro h
    rw [settingsUp_editing cb s hed,
      scrollValue_eval_change cb s 1 hget (Or.inl ⟨by norm_num, h⟩)]
    dsimp only
    rw [if_pos hlu]
    refine ⟨?_, getAt_setAt_self _ hget⟩
    rw [cbCalls_append, cbCalls_highlightValue]
    rfl
  · intro h
    rw [settingsDown_editing cb s hed,
      scrollValue_eval_change cb s (-1) hget (Or.inr ⟨by norm_num, h⟩)]
    dsimp only
    rw [if_pos hlu]
    refine ⟨?_, ?_⟩
    · rw [cbCalls_append, cbCalls_highlightValue]
      rfl
    · exact getAt_setAt_self _ hget
  · intro hne
    rw [settingsOK_eval_live cb s st hed hget hne hlu]
    dsimp only
    exact ⟨cbCalls_highlightValue _, getAt_setAt_self _ hget⟩
  · rw [settingsOK_editing, hed]
    rfl

theorem c2_witness :
    sEditW.editing = true ∧ getAt sEditW.settings sEditW.currentSetting = some stW ∧
    stW.liveUpdate = true ∧
    cbCalls (settingsUp cbTrue sEditW).tr = [(0, { stW with newValue := 2 }, true)] ∧
    cbCalls (settingsOK cbTrue sEditW).tr = [] := by
  have h := c2_live_semantics cbTrue sEditW stW rfl (by decide) rfl
  refine ⟨rfl, by decide, rfl, ?_, ?_⟩
  · exact ((h.1 (by decide)).1).trans (by decide)
  · exact (h.2.2.1 (by decide)).1

/-- Claim C3: for a non-liveUpdate setting being edited, up and down never
invoke the callback; commit invokes it exactly once precisely when the
pending index differs, promoting the pending index when it returns true and
reverting the pending index (currentIndex untouched) when it returns
false. -/
theorem c3_deferred_semantics (cb : Nat → Setting → Bool) (s : SState) (st : Setting)
    (hed : s.editing = true) (hget : getAt s.settings s.currentSetting = some st)
    (hlu : st.liveUpdate = false) :
    cbCalls (settingsUp cb s).tr = [] ∧
    cbCalls (settingsDown cb s).tr = [] ∧
    (st.newValue ≠ st.currentValue →
      cbCalls (settingsOK cb s).tr =
        [(s.currentSetting.toNat, st, cb s.currentSetting.toNat st)] ∧
      getAt ((settingsOK cb s).st).settings s.currentSetting =
        some (if cb s.currentSetting.toNat st then { st with currentValue := st.newValue }
              else { st with newValue := st.currentValue })) ∧
    (st.newValue = st.currentValue →
      cbCalls (settingsOK cb s).tr = [] ∧ ((settingsOK cb s).st).settings = s.settings) := by
  have hnlu : ¬({ st with newValue := st.newValue + (1 : Int) }.liveUpdate = true) := by
    dsimp only
    rw [hlu]
    exact Bool.false_ne_true
  refine ⟨?_, ?_, ?_, ?_⟩
  · rw [settingsUp_editing cb s hed]
    by_cases h : st.newValue < st.nValues - 1
    · rw [scrollValue_eval_change cb s 1 hget (Or.inl ⟨by norm_num, h⟩)]
      dsimp only
      rw [if_neg (show ¬st.liveUpdate = true by rw [hlu]; exact Bool.false_ne_true)]
      exact cbCalls_highlightValue _
    · rw [scrollValue_eval_noop cb s 1 hget (fun hx => h hx.2) (by omega)]
      rfl
  · rw [settingsDown_editing cb s hed]
    by_cases h : 0 < st.newValue
    · rw [scrollValue_eval_change cb s (-1) hget (Or.inr ⟨by norm_num, h⟩)]
      dsimp only
      rw [if_neg (show ¬st.liveUpdate = true by rw [hlu]; exact Bool.false_ne_true)]
      exact cbCalls_highlightValue _
    · rw [scrollValue_eval_noop cb s (-1) hget (by omega) (fun hx => h hx.2)]
      rfl
  · intro hne
    rw [settingsOK_eval_defer cb s st hed hget hne hlu]
    dsimp only
    refine ⟨?_, getAt_setAt_self _ hget⟩
    rw [show cbCalls (Ev.call s.currentSetting.toNat st (cb s.currentSetting.toNat st) ::
        (highlightValue _).2) =
      (s.currentSetting.toNat, st, cb s.currentSetting.toNat st) ::
        cbCalls (highlightValue _).2 from rfl, cbCalls_highlightValue]
  · intro heq
    rw [settingsOK_eval_eq cb s st hed hget heq]
    exact ⟨cbCalls_highlightValue _, rfl⟩

theorem c3_witness :
    sEditWF.editing = true ∧ getAt sEditWF.settings sEditWF.currentSetting = some stWF ∧
    stWF.liveUpdate = false ∧
    cbCalls (settingsUp cbTrue sEditWF).tr = [] ∧
    cbCalls (settingsOK cbTrue sEditWF).tr = [(0, stWF, true)] := by
  have h := c3_deferred_semantics cbTrue sEditWF stWF rfl (by decide) rfl
  refine ⟨rfl, by decide, rfl, h.1, ?_⟩
  exact ((h.2.2.1 (by decide)).1).trans (by decide)

/-- Claim C4: cancel while editing always resets the pending index to the
current index, leaving currentIndex and can untouched; the callback is
re-invoked exactly once on the reverted setting precisely when liveUpdate
held, can was true and the pending value had diverged, and its return value
is discarded. -/
theorem c4_cancel_semantics (cb : Nat → Setting → Bool) (s : SState) (st : Setting)
    (hed : s.editing = true) (hget : getAt s.settings s.currentSetting = some st) :
    getAt ((settingsStop cb s).st).settings s.currentSetting =
      some { st with newValue := st.currentValue } ∧
    cbCalls (settingsStop cb s).tr =
      (if st.liveUpdate = true ∧ st.can = true ∧ st.newValue ≠ st.currentValue then
        [(s.currentSetting.toNat, { st with newValue := st.currentValue },
          cb s.currentSetting.toNat { st with newValue := st.currentValue })]
       else []) := by
  rw [settingsStop_editing cb s hed, resetNewValue_eval cb s st hget]
  dsimp only
  split_ifs with hc
  · exact ⟨getAt_setAt_self _ hget, rfl⟩
  · exact ⟨getAt_setAt_self _ hget, rfl⟩

theorem c4_witness :
    sEditW.editing = true ∧ getAt sEditW.settings sEditW.currentSetting = some stW ∧
    getAt ((settingsStop cbTrue sEditW).st).settings sEditW.currentSetting =
      some { stW with newValue := stW.currentValue } ∧
    cbCalls (settingsStop cbTrue sEditW).tr =
      [(0, { stW with newValue := stW.currentValue }, true)] := by
  have h := c4_cancel_semantics cbTrue sEditW stW rfl (by decide)
  exact ⟨rfl, by decide, h.1, h.2.trans (by decide)⟩

/-- Claim C5: contrary to the specified transition to Browsing, the source
settingsStop leaves the editing flag untouched, shown both in general and on
a concrete run that cancels an active edit and remains in Editing mode. -/
theorem c5_cancel_keeps_editing :
    (∀ (cb : Nat → Setting → Bool) (s : SState),
      ((settingsStop cb s).st).editing = s.editing) ∧
    (run cbTrue (initSettings 1)
      [Op.create (some "A") ["a", "b"] 2 0 false false, Op.ok, Op.stop]).editing = true := by
  constructor
  · intro cb s
    unfold settingsStop
    split_ifs with hed
    · rcases resetNewValue_st cb s with h | ⟨st, hg, h⟩ <;> rw [h]
    · rfl
  · decide

theorem editing_false_of_not {s : SState} (h : ¬s.editing = true) : s.editing = false := by
  cases hb : s.editing
  · rfl
  · exact absurd hb h

/-- Claim C10: every public operation except commit (onAccept) preserves the
currentValue of every registered setting. -/
theorem c10_only_commit_writes_current (cb : Nat → Setting → Bool) (s : SState) (o : Op)
    (hno : o ≠ Op.ok) (i : Nat) (st : Setting) (hv : s.settings[i]? = some st) :
    ∃ st2, (step cb s o).settings[i]? = some st2 ∧ st2.currentValue = st.currentValue := by
  cases o with
  | create n v nv c lu c0 =>
      show ∃ st2, ((createSetting s n v nv c lu c0).1).settings[i]? = some st2 ∧
        st2.currentValue = st.currentValue
      unfold createSetting
      split_ifs with hfull
      · exact ⟨st, hv, rfl⟩
      · dsimp only
        have hi : i < s.settings.length := by
          by_contra hlen
          rw [List.getElem?_eq_none (Nat.le_of_not_lt hlen)] at hv
          exact Option.noConfusion hv
        rw [List.getElem?_append_left hi]
        exact ⟨st, hv, rfl⟩
  | displayOn =>
      show ∃ st2, ((settingsDisplayOn s).st).settings[i]? = some st2 ∧
        st2.currentValue = st.currentValue
      rw [settingsDisplayOn_st]
      exact ⟨st, hv, rfl⟩
  | displayOff => exact ⟨st, hv, rfl⟩
  | up =>
      show ∃ st2, ((settingsUp cb s).st).settings[i]? = some st2 ∧
        st2.currentValue = st.currentValue
      by_cases hed : s.editing = true
      · rw [settingsUp_editing cb s hed]
        by_cases hi : (i : Int) = s.currentSetting
        · obtain ⟨st2, h1, h2, _⟩ := scrollValue_sel cb s 1 i st hi hv
          exact ⟨st2, h1, h2⟩
        · rw [scrollValue_other cb s 1 i hi]
          exact ⟨st, hv, rfl⟩
      · rw [settingsUp_browsing cb s (editing_false_of_not hed), scrollSetting_settings]
        exact ⟨st, hv, rfl⟩
  | down =>
      show ∃ st2, ((settingsDown cb s).st).settings[i]? = some st2 ∧
        st2.currentValue = st.currentValue
      by_cases hed : s.editing = true
      · rw [settingsDown_editing cb s hed]
        by_cases hi : (i : Int) = s.currentSetting
        · obtain ⟨st2, h1, h2, _⟩ := scrollValue_sel cb s (-1) i st hi hv
          exact ⟨st2, h1, h2⟩
        · rw [scrollValue_other cb s (-1) i hi]
          exact ⟨st, hv, rfl⟩
      · rw [settingsDown_browsing cb s (editing_false_of_not hed), scrollSetting_settings]
        exact ⟨st, hv, rfl⟩
  | ok => exact absurd rfl hno
  | stop =>
      show ∃ st2, ((settingsStop cb s).st).settings[i]? = some st2 ∧
        st2.currentValue = st.currentValue
      by_cases hed : s.editing = true
      · rw [settingsStop_editing cb s hed]
        rcases resetNewValue_st cb s with h | ⟨st0, hg, h⟩
        · rw [h]
          exact ⟨st, hv, rfl⟩
        · rw [h]
          dsimp only
          rw [setAt_getElem?]
          split_ifs with hc
          · obtain ⟨h0, hlt, hidx⟩ := getAt_some hg
            have htn : s.currentSetting.toNat = i := by omega
            rw [htn, hv] at hidx
            have hst : st = st0 := Option.some.inj hidx
            exact ⟨{ st0 with newValue := st0.currentValue }, rfl, by rw [hst]⟩
          · exact ⟨st, hv, rfl⟩
      · rw [settingsStop_browsing cb s (editing_false_of_not hed)]
        exact ⟨st, hv, rfl⟩

theorem c10_witness :
    Op.up ≠ Op.ok ∧ sEditW.settings[0]? = some stW ∧
    ∃ st2, (step cbTrue sEditW Op.up).settings[0]? = some st2 ∧
      st2.currentValue = stW.currentValue :=
  ⟨by decide, by decide,
    c10_only_commit_writes_current cbTrue sEditW Op.up (by decide) 0 stW (by decide)⟩

theorem settingsOK_synced (cb : Nat → Setting → Bool) (s : SState) (hInv : Inv s)
    (hed : s.editing = true) :
    ∀ (i : Nat) (st2 : Setting), ((settingsOK cb s).st).settings[i]? = some st2 →
      st2.newValue = st2.currentValue := by
  intro i st2 hv
  cases hg : getAt s.settings s.currentSetting with
  | none =>
      have hst : ((settingsOK cb s).st).settings = s.settings := by
        unfold settingsOK
        rw [if_pos hed, hg]
      rw [hst] at hv
      rcases hInv i st2 hv with h | ⟨_, hic⟩
      · exact h
      · exfalso
        have h0 : (0 : Int) ≤ s.currentSetting := by
          rw [← hic]
          exact Int.natCast_nonneg i
        unfold getAt at hg
        rw [if_pos h0] at hg
        have htn : s.currentSetting.toNat = i := by omega
        rw [htn, hv] at hg
        exact Option.noConfusion hg
  | some st =>
      have hcur_i : ∀ (hic : (i : Int) = s.currentSetting), s.currentSetting.toNat = i := by
        intro hic
        omega
      by_cases hne : st.newValue ≠ st.currentValue
      · cases hlu : st.liveUpdate with
        | true =>
            rw [settingsOK_eval_live cb s st hed hg hne hlu] at hv
            dsimp only at hv
            rw [setAt_getElem?] at hv
            by_cases hc : s.currentSetting = (i : Int) ∧ i < s.settings.length
            · rw [if_pos hc] at hv
              have h2 := Option.some.inj hv
              rw [← h2]
              split_ifs <;> rfl
            · rw [if_neg hc] at hv
              rcases hInv i st2 hv with h | ⟨_, hic⟩
              · exact h
              · exfalso
                apply hc
                refine ⟨hic.symm, ?_⟩
                by_contra hl
                rw [List.getElem?_eq_none (Nat.le_of_not_lt hl)] at hv
                exact Option.noConfusion hv
        | false =>
            rw [settingsOK_eval_defer cb s st hed hg hne hlu] at hv
            dsimp only at hv
            rw [setAt_getElem?] at hv
            by_cases hc : s.currentSetting = (i : Int) ∧ i < s.settings.length
            · rw [if_pos hc] at hv
              have h2 := Option.some.inj hv
              rw [← h2]
              split_ifs <;> rfl
            · rw [if_neg hc] at hv
              rcases hInv i st2 hv with h | ⟨_, hic⟩
              · exact h
              · exfalso
                apply hc
                refine ⟨hic.symm, ?_⟩
                by_contra hl
                rw [List.getElem?_eq_none (Nat.le_of_not_lt hl)] at hv
                exact Option.noConfusion hv
      · rw [not_not] at hne
        rw [settingsOK_eval_eq cb s st hed hg hne] at hv
        dsimp only at hv
        rcases hInv i st2 hv with h | ⟨_, hic⟩
        · exact h
        · obtain ⟨h0, hlt, hidx⟩ := getAt_some hg
          have htn : s.currentSetting.toNat = i := hcur_i hic
          rw [htn, hv] at hidx
          rw [Option.some.inj hidx]
          exact hne

theorem inv_step (cb : Nat → Setting → Bool) (s : SState) (op : Op) (hInv : Inv s)
    (hOff : op = Op.displayOff → s.editing = false) : Inv (step cb s op) := by
  cases op with
  | create n v nv c lu c0 =>
      by_cases hfull : (s.settings.length : Int) = s.maxSettings
      · have hst : step cb s (Op.create n v nv c lu c0) = s := by
          show (createSetting s n v nv c lu c0).1 = s
          unfold createSetting
          rw [if_pos hfull]
        rw [hst]
        exact hInv
      · have hst : step cb s (Op.create n v nv c lu c0) =
            { s with settings := s.settings ++
              [{ name := n, values := v, nValues := nv, currentValue := c,
                 newValue := c, liveUpdate := lu, can := c0 }] } := by
          show (createSetting s n v nv c lu c0).1 = _
          unfold createSetting
          rw [if_neg hfull]
        rw [hst]
        intro i st2 hv
        dsimp only at hv ⊢
        by_cases hi : i < s.settings.length
        · rw [List.getElem?_append_left hi] at hv
          exact hInv i st2 hv
        · rw [List.getElem?_append_right (Nat.le_of_not_lt hi)] at hv
          have hz : i - s.settings.length = 0 := by
            by_contra hz
            rw [List.getElem?_eq_none (by simp; omega)] at hv
            exact Option.noConfusion hv
          rw [hz, List.getElem?_cons_zero] at hv
          left
          rw [← Option.some.inj hv]
  | displayOn =>
      have hst : step cb s Op.displayOn = { s with canUseDisplay := true } := by
        show (settingsDisplayOn s).st = _
        exact settingsDisplayOn_st s
      rw [hst]
      intro i st2 hv
      exact hInv i st2 hv
  | displayOff =>
      have hed := hOff rfl
      intro i st2 hv
      rcases hInv i st2 hv with h | ⟨het, _⟩
      · exact Or.inl h
      · rw [hed] at het
        exact absurd het Bool.false_ne_true
  | up =>
      by_cases hed : s.editing = true
      · have hst : step cb s Op.up = (scrollValue cb s 1).st := by
          show (settingsUp cb s).st = _
          rw [settingsUp_editing cb s hed]
        rw [hst]
        obtain ⟨he, hc, _, _, _⟩ := scrollValue_shape cb s 1
        intro i st2 hv
        by_cases hi : (i : Int) = s.currentSetting
        · right
          rw [he, hc]
          exact ⟨hed, hi⟩
        · rw [scrollValue_other cb s 1 i hi] at hv
          rcases hInv i st2 hv with h | ⟨_, hic⟩
          · exact Or.inl h
          · exact absurd hic hi
      · have hst : step cb s Op.up = (scrollSetting s 1).st := by
          show (settingsUp cb s).st = _
          rw [settingsUp_browsing cb s (editing_false_of_not hed)]
        rw [hst]
        intro i st2 hv
        rw [scrollSetting_settings] at hv
        rcases hInv i st2 hv with h | ⟨het, _⟩
        · exact Or.inl h
        · exact absurd het hed
  | down =>
      by_cases hed : s.editing = true
      · have hst : step cb s Op.down = (scrollValue cb s (-1)).st := by
          show (settingsDown cb s).st = _
          rw [settingsDown_editing cb s hed]
        rw [hst]
        obtain ⟨he, hc, _, _, _⟩ := scrollValue_shape cb s (-1)
        intro i st2 hv
        by_cases hi : (i : Int) = s.currentSetting
        · right
          rw [he, hc]
          exact ⟨hed, hi⟩
        · rw [scrollValue_other cb s (-1) i hi] at hv
          rcases hInv i st2 hv with h | ⟨_, hic⟩
          · exact Or.inl h
          · exact absurd hic hi
      · have hst : step cb s Op.down = (scrollSetting s (-1)).st := by
          show (settingsDown cb s).st = _
          rw [settingsDown_browsing cb s (editing_false_of_not hed)]
        rw [hst]
        intro i st2 hv
        rw [scrollSetting_settings] at hv
        rcases hInv i st2 hv with h | ⟨het, _⟩
        · exact Or.inl h
        · exact absurd het hed
  | ok =>
      by_cases hed : s.editing = true
      · intro i st2 hv
        exact Or.inl (settingsOK_synced cb s hInv hed i st2 hv)
      · have hst : step cb s Op.ok =
            { s with editing := !s.editing } := by
          show (settingsOK cb s).st = _
          rw [settingsOK_browsing cb s (editing_false_of_not hed)]
        rw [hst]
        intro i st2 hv
        rcases hInv i st2 hv with h | ⟨het, _⟩
        · exact Or.inl h
        · exact absurd het hed
  | stop =>
      by_cases hed : s.editing = true
      · have hst : step cb s Op.stop = (resetNewValue cb s).st := by
          show (settingsStop cb s).st = _
          rw [settingsStop_editing cb s hed]
        rw [hst]
        rcases resetNewValue_st cb s with h | ⟨st0, hg, h⟩
        · rw [h]
          exact hInv
        · rw [h]
          intro i st2 hv
          dsimp only at hv ⊢
          rw [setAt_getElem?] at hv
          split_ifs at hv with hc
          · left
            rw [← Option.some.inj hv]
          · rcases hInv i st2 hv with h2 | ⟨het, hic⟩
            · exact Or.inl h2
            · exact Or.inr ⟨het, hic⟩
      · have hst : step cb s Op.stop = s := by
          show (settingsStop cb s).st = _
          rw [settingsStop_browsing cb s (editing_false_of_not hed)]
        rw [hst]
        exact hInv

theorem inv_run (cb : Nat → Setting → Bool) (l : List Op) :
    ∀ (s : SState), Inv s → noOffWhileEditing cb s l = true → Inv (run cb s l) := by
  induction l with
  | nil =>
      intro s h _
      exact h
  | cons op rest ih =>
      intro s h hno
      rw [show run cb s (op :: rest) = run cb (step cb s op) rest from rfl]
      unfold noOffWhileEditing at hno
      rw [Bool.and_eq_true] at hno
      refine ih (step cb s op) (inv_step cb s op h ?_) hno.2
      intro hop
      subst hop
      have ha := hno.1
      simpa using ha

/-- Claim C1 (amended): in every state reached from initialization by public
operations in which displayDeactivate is never invoked while in Editing
mode, whenever the controller is not editing every registered setting has
pendingIndex equal to currentIndex. -/
theorem c1_not_editing_synced (cb : Nat → Setting → Bool) (n : Int) (l : List Op)
    (hsafe : noOffWhileEditing cb (initSettings n) l = true) (i : Nat) (st : Setting)
    (hed : (run cb (initSettings n) l).editing = false)
    (hv : (run cb (initSettings n) l).settings[i]? = some st) :
    st.newValue = st.currentValue := by
  have hInv := inv_run cb l (initSettings n)
    (by
      intro i st hv
      simp [initSettings] at hv) hsafe
  rcases hInv i st hv with h | ⟨het, _⟩
  · exact h
  · rw [hed] at het
    exact absurd het Bool.false_ne_true

/-- Claim C1 counterexample: entering an edit, scrolling the value, and then
deactivating the display reaches a state that is not editing while the
non-separator setting has pendingIndex 1 different from currentIndex 0. -/
theorem c1_counterexample :
    (run cbTrue (initSettings 1)
      [Op.create (some "A") ["a", "b"] 2 0 false false, Op.ok, Op.up, Op.displayOff]).editing
        = false ∧
    (run cbTrue (initSettings 1)
      [Op.create (some "A") ["a", "b"] 2 0 false false, Op.ok, Op.up,
        Op.displayOff]).settings[0]? =
      some { name := some "A", values := ["a", "b"], nValues := 2, currentValue := 0,
             newValue := 1, liveUpdate := false, can := false } := by
  constructor
  · decide
  · decide

theorem c1_witness :
    noOffWhileEditing cbTrue (initSettings 1)
      [Op.create (some "A") ["a", "b"] 2 0 false false] = true ∧
    (run cbTrue (initSettings 1)
      [Op.create (some "A") ["a", "b"] 2 0 false false]).editing = false ∧
    (run cbTrue (initSettings 1)
      [Op.create (some "A") ["a", "b"] 2 0 false false]).settings[0]? = some stC1 ∧
    stC1.newValue = stC1.currentValue :=
  ⟨by decide, by decide, by decide,
    c1_not_editing_synced cbTrue 1 [Op.create (some "A") ["a", "b"] 2 0 false false]
      (by decide) 0 stC1 (by decide) (by decide)⟩

theorem bool_eq_false {b : Bool} (h : ¬b = true) : b = false := by
  cases b
  · rfl
  · exact absurd rfl h

/-! Characterization of the do-while selection search. -/

theorem seek_pos_char (l : List Setting) : ∀ (fuel : Nat) (c j : Int),
    seek l 1 fuel c = some j →
    c < j ∧ j < (l.length : Int) ∧ isNullAt l j = false ∧
      ∀ i, c < i → i < j → isNullAt l i = true := by
  intro fuel
  induction fuel with
  | zero =>
      intro c j h
      exact Option.noConfusion h
  | succ fuel ih =>
      intro c j h
      unfold seek at h
      by_cases h1 : (1 : Int) > 0 ∧ c < (l.length : Int) - 1
      · rw [if_pos h1] at h
        dsimp only at h
        by_cases hn : isNullAt l (c + 1) = true
        · rw [if_pos hn] at h
          obtain ⟨ha, hb, hc2, hd2⟩ := ih (c + 1) j h
          refine ⟨by omega, hb, hc2, ?_⟩
          intro i hi1 hi2
          by_cases hieq : i = c + 1
          · rw [hieq]
            exact hn
          · exact hd2 i (by omega) hi2
        · rw [if_neg hn] at h
          have hj := Option.some.inj h
          refine ⟨by omega, by omega, ?_, ?_⟩
          · rw [← hj]
            exact bool_eq_false hn
          · intro i hi1 hi2
            exfalso
            omega
      · rw [if_neg h1] at h
        by_cases h2 : (1 : Int) < 0 ∧ c > 0
        · exact absurd h2.1 (by norm_num)
        · rw [if_neg h2] at h
          exact Option.noConfusion h

theorem seek_neg_char (l : List Setting) : ∀ (fuel : Nat) (c j : Int),
    seek l (-1) fuel c = some j →
    j < c ∧ 0 ≤ j ∧ isNullAt l j = false ∧
      ∀ i, j < i → i < c → isNullAt l i = true := by
  intro fuel
  induction fuel with
  | zero =>
      intro c j h
      exact Option.noConfusion h
  | succ fuel ih =>
      intro c j h
      unfold seek at h
      rw [if_neg (show ¬((-1 : Int) > 0 ∧ c < (l.length : Int) - 1) by
        intro hx
        omega)] at h
      by_cases h2 : (-1 : Int) < 0 ∧ c > 0
      · rw [if_pos h2] at h
        dsimp only at h
        by_cases hn : isNullAt l (c + -1) = true
        · rw [if_pos hn] at h
          obtain ⟨ha, hb, hc2, hd2⟩ := ih (c + -1) j h
          refine ⟨by omega, hb, hc2, ?_⟩
          intro i hi1 hi2
          by_cases hieq : i = c + -1
          · rw [hieq]
            exact hn
          · exact hd2 i hi1 (by omega)
        · rw [if_neg hn] at h
          have hj := Option.some.inj h
          refine ⟨by omega, by omega, ?_, ?_⟩
          · rw [← hj]
            exact bool_eq_false hn
          · intro i hi1 hi2
            exfalso
            omega
      · rw [if_neg h2] at h
        exact Option.noConfusion h

/-! Rendering success facts used by the result-policy claims. -/

theorem getAt_isSome_of_range {l : List Setting} {i : Int} (h0 : 0 ≤ i)
    (hl : i < (l.length : Int)) : ∃ st, getAt l i = some st := by
  unfold getAt
  rw [if_pos h0]
  cases hx : l[i.toNat]? with
  | none =>
      rw [List.getElem?_eq_none_iff] at hx
      omega
  | some st => exact ⟨st, rfl⟩

theorem displaySetting_fst {s : SState} {i : Int} {st : Setting} (row : Int) (clean : Bool)
    (fg bg : Int) (hst : getAt s.settings i = some st) :
    (displaySetting s i row clean fg bg).1 = true := by
  unfold displaySetting
  rw [hst]
  dsimp only
  rcases hnm : st.name with _ | nm
  · rfl
  · dsimp only
    unfold displayName displayValue
    rw [hst]
    rfl

theorem dsLoop_ok (s : SState) (first : Int) :
    ∀ (k : Nat) (i : Int), 0 ≤ first → 0 ≤ i → first + i + (k : Int) ≤ (s.settings.length : Int) →
      (dsLoop s first k i true).1 = true := by
  intro k
  induction k with
  | zero =>
      intro i _ _ _
      rfl
  | succ k ih =>
      intro i hf hi hk
      unfold dsLoop
      rw [if_pos rfl]
      dsimp only
      obtain ⟨st, hst⟩ := getAt_isSome_of_range (l := s.settings) (i := first + i)
        (by omega) (by omega)
      rw [displaySetting_fst i false WHITE BLACK hst]
      have := ih (i + 1) hf (by omega) (by omega)
      simpa using this

theorem displaySettings_ok (s : SState) (first : Int) (hcu : s.canUseDisplay = true)
    (hf : 0 ≤ first) : (displaySettings s first).ok = true := by
  unfold displaySettings
  split_ifs with h
  · exact absurd (h.symm.trans hcu) Bool.false_ne_true
  · dsimp only
    by_cases hn : min ((s.settings.length : Int) - first) TFT_LINES ≤ 0
    · rw [show (min ((s.settings.length : Int) - first) TFT_LINES).toNat = 0 by omega]
      rfl
    · push_neg at hn
      apply dsLoop_ok s first _ 0 hf le_rfl
      have hTL : TFT_LINES = 16 := by decide
      omega

theorem scrollSetting_ok (s : SState) (d : Int) (hcur : 0 ≤ s.currentSetting)
    (htop : 0 ≤ s.topSetting) (hd : d = 1 ∨ d = -1) :
    (scrollSetting s d).ok = navResult s d := by
  cases hk : seek s.settings d (s.settings.length + 1) s.currentSetting with
  | none =>
      have h1 : scrollSetting s d = ⟨s, false, []⟩ := by
        unfold scrollSetting
        rw [hk]
      have h2 : navResult s d = false := by
        unfold navResult
        rw [hk]
      rw [h1, h2]
  | some j =>
      have hj0 : 0 ≤ j ∧ j ≠ s.currentSetting := by
        rcases hd with rfl | rfl
        · obtain ⟨ha, _, _, _⟩ := seek_pos_char s.settings _ _ _ hk
          exact ⟨by omega, by omega⟩
        · obtain ⟨ha, hb, _, _⟩ := seek_neg_char s.settings _ _ _ hk
          exact ⟨hb, by omega⟩
      have h2 : navResult s d =
          (if j < s.topSetting ∨ j ≥ s.topSetting + TFT_LINES then s.canUseDisplay
           else true) := by
        unfold navResult
        rw [hk]
      rw [h2]
      unfold scrollSetting
      rw [hk]
      dsimp only
      rw [if_pos hj0.2]
      by_cases h3 : j < s.topSetting
      · rw [if_pos h3, if_pos (Or.inl h3)]
        by_cases hcu : s.canUseDisplay = true
        · rw [hcu]
          exact displaySettings_ok { s with currentSetting := j, canUseDisplay := true } j rfl
            hj0.1
        · have hcuf := bool_eq_false hcu
          have hds : displaySettings { s with currentSetting := j } j =
              ⟨{ s with currentSetting := j }, false, []⟩ := by
            unfold displaySettings
            rw [if_pos (show ({ s with currentSetting := j } : SState).canUseDisplay = false
              from hcuf)]
          rw [hds, hcuf]
      · rw [if_neg h3]
        by_cases h4 : j ≥ s.topSetting + TFT_LINES
        · rw [if_pos h4, if_pos (Or.inr h4)]
          by_cases hcu : s.canUseDisplay = true
          · rw [hcu]
            apply displaySettings_ok { s with currentSetting := j, canUseDisplay := true } _ rfl
            have hTL : TFT_LINES = 16 := by decide
            omega
          · have hcuf := bool_eq_false hcu
            have hds : displaySettings { s with currentSetting := j } (j - TFT_LINES + 1) =
                ⟨{ s with currentSetting := j }, false, []⟩ := by
              unfold displaySettings
              rw [if_pos (show ({ s with currentSetting := j } : SState).canUseDisplay = false
                from hcuf)]
            rw [hds, hcuf]
        · rw [if_neg h4, if_neg (by
            intro hx
            rcases hx with hx | hx
            · exact h3 hx
            · exact h4 hx)]

/-- Claim C8 counterexample: in a one-setting browsing state with the
display owned, onUp is clamped at the boundary, performs no rendering
operation at all, and yet returns false. -/
theorem c8_counterexample :
    (settingsUp cbTrue sOne).ok = false ∧ (settingsUp cbTrue sOne).tr = [] ∧
    sOne.canUseDisplay = true := by
  refine ⟨by decide, by decide, rfl⟩

/-- Claim C8 (amended): onAccept and onCancel always return true; onUp and
onDown while editing a valid selection always return true; onUp and onDown
while browsing return false when clamped even though no rendering failed,
and otherwise return true unless the full-window redraw they needed failed
because the display was not owned. -/
theorem c8_result_policy (cb : Nat → Setting → Bool) (s : SState)
    (hcur : 0 ≤ s.currentSetting) (htop : 0 ≤ s.topSetting) :
    (settingsOK cb s).ok = true ∧
    (settingsStop cb s).ok = true ∧
    (s.editing = true → ∀ st, getAt s.settings s.currentSetting = some st →
      (settingsUp cb s).ok = true ∧ (settingsDown cb s).ok = true) ∧
    (s.editing = false →
      (settingsUp cb s).ok = navResult s 1 ∧ (settingsDown cb s).ok = navResult s (-1)) := by
  refine ⟨?_, ?_, ?_, ?_⟩
  · unfold settingsOK
    split_ifs with hed
    · split
      · rfl
      · rfl
    · rfl
  · unfold settingsStop
    split_ifs with hed
    · unfold resetNewValue
      split
      · rfl
      · dsimp only
        split_ifs <;> rfl
    · rfl
  · intro hed st hst
    rw [settingsUp_editing cb s hed, settingsDown_editing cb s hed]
    constructor
    · unfold scrollValue
      rw [hst]
      dsimp only
      split_ifs
      all_goals first
        | rfl
        | exact highlightValue_fst (getAt_setAt_self _ hst)
    · unfold scrollValue
      rw [hst]
      dsimp only
      split_ifs
      all_goals first
        | rfl
        | exact highlightValue_fst (getAt_setAt_self _ hst)
  · intro hed
    rw [settingsUp_browsing cb s hed, settingsDown_browsing cb s hed]
    exact ⟨scrollSetting_ok s 1 hcur htop (Or.inl rfl),
      scrollSetting_ok s (-1) hcur htop (Or.inr rfl)⟩

theorem c8_witness :
    0 ≤ sOne.currentSetting ∧ 0 ≤ sOne.topSetting ∧ sOne.editing = false ∧
    (settingsUp cbTrue sOne).ok = navResult sOne 1 ∧
    navResult sOne 1 = false :=
  ⟨by decide, by decide, rfl,
    ((c8_result_policy cbTrue sOne (by decide) (by decide)).2.2.2 rfl).1, by decide⟩

/-! Render-failure policy: the display-ownership flag is the only failure
source, and it never influences registry state, mode, or callback calls. -/

theorem highlightValue_congr (s1 s2 : SState) (h1 : s1.settings = s2.settings)
    (h2 : s1.currentSetting = s2.currentSetting) (h3 : s1.topSetting = s2.topSetting)
    (h4 : s1.editing = s2.editing) : highlightValue s1 = highlightValue s2 := by
  unfold highlightValue displayValue
  rw [h1, h2, h3, h4]

theorem cbCalls_nil : cbCalls [] = [] := rfl

theorem cbCalls_selectSetting (s : SState) (mark : Bool) :
    cbCalls (selectSetting s mark).2 = [] := rfl

theorem cbCalls_displayName (s : SState) (i row : Int) (clean : Bool) (fg bg : Int) :
    cbCalls (displayName s i row clean fg bg).2 = [] := by
  unfold displayName
  split <;> rfl

theorem cbCalls_displayValue (s : SState) (i row : Int) (clean : Bool) (fg bg : Int) :
    cbCalls (displayValue s i row clean fg bg).2 = [] := by
  unfold displayValue
  split <;> rfl

theorem cbCalls_displaySetting (s : SState) (i row : Int) (clean : Bool) (fg bg : Int) :
    cbCalls (displaySetting s i row clean fg bg).2 = [] := by
  unfold displaySetting
  split
  · rfl
  · rename_i st heq
    dsimp only
    split
    · split_ifs
      · rw [cbCalls_append, cbCalls_displayName, cbCalls_displayValue]
        rfl
      · exact cbCalls_displayName s i row clean fg bg
    · rfl

theorem cbCalls_dsLoop (s : SState) (first : Int) :
    ∀ (k : Nat) (i : Int) (r : Bool), cbCalls (dsLoop s first k i r).2 = [] := by
  intro k
  induction k with
  | zero =>
      intro i r
      rfl
  | succ k ih =>
      intro i r
      unfold dsLoop
      split_ifs with hr
      · dsimp only
        rw [cbCalls_append, cbCalls_displaySetting, ih (i + 1)]
        rfl
      · rfl

theorem cbCalls_displaySettings (s : SState) (f : Int) :
    cbCalls (displaySettings s f).tr = [] := by
  unfold displaySettings
  split_ifs with h
  · rfl
  · show cbCalls (Ev.fillScreen :: _) = []
    rw [show ∀ (x : List Ev), cbCalls (Ev.fillScreen :: x) = cbCalls x from fun x => rfl]
    exact cbCalls_dsLoop s f _ 0 true

theorem displaySettings_tr_on (s : SState) (f : Int) (hcu : s.canUseDisplay = true) :
    (displaySettings s f).tr =
      Ev.fillScreen ::
        (dsLoop s f (min ((s.settings.length : Int) - f) TFT_LINES).toNat 0 true).2 := by
  unfold displaySettings
  split_ifs with h
  · exact absurd (h.symm.trans hcu) Bool.false_ne_true
  · rfl

theorem c9p_of_eq {r1 r2 : R} (hok : r1.ok = r2.ok) (htr : r1.tr = r2.tr)
    (hst : lproj r1.st = lproj r2.st) : C9P r1 r2 := by
  refine ⟨hst, by rw [htr], [], [], r1.tr, r2.tr, rfl, rfl, by rw [htr], ?_⟩
  rw [hok, show ([] : List Ev).isEmpty = true from rfl, Bool.and_true]

theorem scrollValue_canUse (cb : Nat → Setting → Bool) (s : SState) (d : Int) (b : Bool) :
    lproj ((scrollValue cb { s with canUseDisplay := b } d).st) =
      lproj ((scrollValue cb s d).st) ∧
    (scrollValue cb { s with canUseDisplay := b } d).ok = (scrollValue cb s d).ok ∧
    (scrollValue cb { s with canUseDisplay := b } d).tr = (scrollValue cb s d).tr := by
  unfold scrollValue
  dsimp only
  cases hg : getAt s.settings s.currentSetting with
  | none => exact ⟨rfl, rfl, rfl⟩
  | some st =>
      dsimp only
      split_ifs
      all_goals exact ⟨rfl, rfl, rfl⟩

theorem settingsOK_canUse (cb : Nat → Setting → Bool) (s : SState) (b : Bool) :
    lproj ((settingsOK cb { s with canUseDisplay := b }).st) =
      lproj ((settingsOK cb s).st) ∧
    (settingsOK cb { s with canUseDisplay := b }).ok = (settingsOK cb s).ok ∧
    (settingsOK cb { s with canUseDisplay := b }).tr = (settingsOK cb s).tr := by
  unfold settingsOK
  dsimp only
  split_ifs with hed
  · cases hg : getAt s.settings s.currentSetting with
    | none => exact ⟨rfl, rfl, rfl⟩
    | some st => exact ⟨rfl, rfl, rfl⟩
  · exact ⟨rfl, rfl, rfl⟩

theorem settingsStop_canUse (cb : Nat → Setting → Bool) (s : SState) (b : Bool) :
    lproj ((settingsStop cb { s with canUseDisplay := b }).st) =
      lproj ((settingsStop cb s).st) ∧
    (settingsStop cb { s with canUseDisplay := b }).ok = (settingsStop cb s).ok ∧
    (settingsStop cb { s with canUseDisplay := b }).tr = (settingsStop cb s).tr := by
  unfold settingsStop resetNewValue
  dsimp only
  split_ifs with hed
  · cases hg : getAt s.settings s.currentSetting with
    | none => exact ⟨rfl, rfl, rfl⟩
    | some st =>
        dsimp only
        split_ifs with hr
        · exact ⟨rfl, rfl, rfl⟩
        · exact ⟨rfl, rfl, rfl⟩
  · exact ⟨rfl, rfl, rfl⟩

theorem scrollSetting_c9 (s : SState) (d : Int) :
    C9P (scrollSetting { s with canUseDisplay := false } d)
        (scrollSetting { s with canUseDisplay := true } d) := by
  cases hk : seek s.settings d (s.settings.length + 1) s.currentSetting with
  | none =>
      have hOff : scrollSetting { s with canUseDisplay := false } d =
          ⟨{ s with canUseDisplay := false }, false, []⟩ := by
        unfold scrollSetting
        dsimp only
        rw [hk]
      have hOn : scrollSetting { s with canUseDisplay := true } d =
          ⟨{ s with canUseDisplay := true }, false, []⟩ := by
        unfold scrollSetting
        dsimp only
        rw [hk]
      rw [hOff, hOn]
      exact ⟨rfl, rfl, [], [], [], [], rfl, rfl, rfl, rfl⟩
  | some j =>
      by_cases hj : j ≠ s.currentSetting
      · by_cases h3 : j < s.topSetting
        · have hdsOff : displaySettings { s with canUseDisplay := false, currentSetting := j }
              j = ⟨{ s with canUseDisplay := false, currentSetting := j }, false, []⟩ := by
            unfold displaySettings
            rw [if_pos rfl]
          have hOff : scrollSetting { s with canUseDisplay := false } d =
              ⟨{ s with canUseDisplay := false, currentSetting := j }, false,
                (selectSetting { s with canUseDisplay := false } false).2 ++ [] ++
                  (selectSetting { s with canUseDisplay := false, currentSetting := j }
                    true).2⟩ := by
            unfold scrollSetting
            dsimp only
            rw [hk]
            dsimp only
            rw [if_pos hj, if_pos h3, hdsOff]
          have hOn : scrollSetting { s with canUseDisplay := true } d =
              ⟨{ s with canUseDisplay := true, currentSetting := j, topSetting := j },
                (displaySettings { s with canUseDisplay := true, currentSetting := j } j).ok,
                (selectSetting { s with canUseDisplay := true } false).2 ++
                  (displaySettings { s with canUseDisplay := true, currentSetting := j } j).tr ++
                  (selectSetting
                    { s with canUseDisplay := true, currentSetting := j, topSetting := j }
                    true).2⟩ := by
            unfold scrollSetting
            dsimp only
            rw [hk]
            dsimp only
            rw [if_pos hj, if_pos h3, displaySettings_st]
            rw [if_pos rfl]
          rw [hOff, hOn]
          refine ⟨rfl, ?_,
            (selectSetting { s with canUseDisplay := true } false).2,
            (displaySettings { s with canUseDisplay := true, currentSetting := j } j).tr,
            (selectSetting { s with canUseDisplay := false, currentSetting := j } true).2,
            (selectSetting { s with canUseDisplay := true, currentSetting := j, topSetting := j }
              true).2,
            rfl, rfl, rfl, ?_⟩
          · simp [cbCalls_append, cbCalls_selectSetting, cbCalls_displaySettings, cbCalls_nil]
          · rw [displaySettings_tr_on _ _ rfl]
            simp
        · by_cases h4 : j ≥ s.topSetting + TFT_LINES
          · have hdsOff : displaySettings
                { s with canUseDisplay := false, currentSetting := j } (j - TFT_LINES + 1) =
                ⟨{ s with canUseDisplay := false, currentSetting := j }, false, []⟩ := by
              unfold displaySettings
              rw [if_pos rfl]
            have hOff : scrollSetting { s with canUseDisplay := false } d =
                ⟨{ s with canUseDisplay := false, currentSetting := j }, false,
                  (selectSetting { s with canUseDisplay := false } false).2 ++ [] ++
                    (selectSetting { s with canUseDisplay := false, currentSetting := j }
                      true).2⟩ := by
              unfold scrollSetting
              dsimp only
              rw [hk]
              dsimp only
              rw [if_pos hj, if_neg h3, if_pos h4, hdsOff]
            have hOn : scrollSetting { s with canUseDisplay := true } d =
                ⟨{ s with canUseDisplay := true, currentSetting := j, topSetting := j - TFT_LINES + 1 },
                  (displaySettings { s with canUseDisplay := true, currentSetting := j }
                    (j - TFT_LINES + 1)).ok,
                  (selectSetting { s with canUseDisplay := true } false).2 ++
                    (displaySettings { s with canUseDisplay := true, currentSetting := j }
                      (j - TFT_LINES + 1)).tr ++
                    (selectSetting
                      { s with canUseDisplay := true, currentSetting := j, topSetting := j - TFT_LINES + 1 }
                      true).2⟩ := by
              unfold scrollSetting
              dsimp only
              rw [hk]
              dsimp only
              rw [if_pos hj, if_neg h3, if_pos h4, displaySettings_st]
              rw [if_pos rfl]
            rw [hOff, hOn]
            refine ⟨rfl, ?_,
              (selectSetting { s with canUseDisplay := true } false).2,
              (displaySettings { s with canUseDisplay := true, currentSetting := j }
                (j - TFT_LINES + 1)).tr,
              (selectSetting { s with canUseDisplay := false, currentSetting := j } true).2,
              (selectSetting
                { s with canUseDisplay := true, currentSetting := j, topSetting := j - TFT_LINES + 1 }
                true).2,
              rfl, rfl, rfl, ?_⟩
            · simp [cbCalls_append, cbCalls_selectSetting, cbCalls_displaySettings, cbCalls_nil]
            · rw [displaySettings_tr_on _ _ rfl]
              simp
          · have hOff : scrollSetting { s with canUseDisplay := false } d =
                ⟨{ s with canUseDisplay := false, currentSetting := j }, true,
                  (selectSetting { s with canUseDisplay := false } false).2 ++
                    (selectSetting { s with canUseDisplay := false, currentSetting := j }
                      true).2⟩ := by
              unfold scrollSetting
              dsimp only
              rw [hk]
              dsimp only
              rw [if_pos hj, if_neg h3, if_neg h4]
            have hOn : scrollSetting { s with canUseDisplay := true } d =
                ⟨{ s with canUseDisplay := true, currentSetting := j }, true,
                  (selectSetting { s with canUseDisplay := true } false).2 ++
                    (selectSetting { s with canUseDisplay := true, currentSetting := j }
                      true).2⟩ := by
              unfold scrollSetting
              dsimp only
              rw [hk]
              dsimp only
              rw [if_pos hj, if_neg h3, if_neg h4]
            rw [hOff, hOn]
            exact c9p_of_eq rfl rfl rfl
      · rw [not_not] at hj
        have hOff : scrollSetting { s with canUseDisplay := false } d =
            ⟨{ s with canUseDisplay := false }, true, []⟩ := by
          unfold scrollSetting
          dsimp only
          rw [hk]
          dsimp only
          rw [if_neg (by rw [hj]; exact fun hx => hx rfl)]
        have hOn : scrollSetting { s with canUseDisplay := true } d =
            ⟨{ s with canUseDisplay := true }, true, []⟩ := by
          unfold scrollSetting
          dsimp only
          rw [hk]
          dsimp only
          rw [if_neg (by rw [hj]; exact fun hx => hx rfl)]
        rw [hOff, hOn]
        exact ⟨rfl, rfl, [], [], [], [], rfl, rfl, rfl, rfl⟩

/-- Claim C9: forcing every rendering operation of an event to fail (the
display not owned) changes neither the registry and mode state nor the
callback invocations; the trace only lacks the internal writes of the
failed full-window redraw, the same number of subsequent writes still
execute, and the failure is AND-accumulated into the returned boolean. -/
theorem c9_render_failure_harmless (cb : Nat → Setting → Bool) (s : SState) :
    C9P (settingsUp cb { s with canUseDisplay := false })
        (settingsUp cb { s with canUseDisplay := true }) ∧
    C9P (settingsDown cb { s with canUseDisplay := false })
        (settingsDown cb { s with canUseDisplay := true }) ∧
    C9P (settingsOK cb { s with canUseDisplay := false })
        (settingsOK cb { s with canUseDisplay := true }) ∧
    C9P (settingsStop cb { s with canUseDisplay := false })
        (settingsStop cb { s with canUseDisplay := true }) := by
  refine ⟨?_, ?_, ?_, ?_⟩
  · by_cases hed : s.editing = true
    · rw [settingsUp_editing cb { s with canUseDisplay := false } hed,
        settingsUp_editing cb { s with canUseDisplay := true } hed]
      obtain ⟨hp1, ho1, ht1⟩ := scrollValue_canUse cb s 1 false
      obtain ⟨hp2, ho2, ht2⟩ := scrollValue_canUse cb s 1 true
      exact c9p_of_eq (ho1.trans ho2.symm) (ht1.trans ht2.symm) (hp1.trans hp2.symm)
    · have hedf := editing_false_of_not hed
      rw [settingsUp_browsing cb { s with canUseDisplay := false } hedf,
        settingsUp_browsing cb { s with canUseDisplay := true } hedf]
      exact scrollSetting_c9 s 1
  · by_cases hed : s.editing = true
    · rw [settingsDown_editing cb { s with canUseDisplay := false } hed,
        settingsDown_editing cb { s with canUseDisplay := true } hed]
      obtain ⟨hp1, ho1, ht1⟩ := scrollValue_canUse cb s (-1) false
      obtain ⟨hp2, ho2, ht2⟩ := scrollValue_canUse cb s (-1) true
      exact c9p_of_eq (ho1.trans ho2.symm) (ht1.trans ht2.symm) (hp1.trans hp2.symm)
    · have hedf := editing_false_of_not hed
      rw [settingsDown_browsing cb { s with canUseDisplay := false } hedf,
        settingsDown_browsing cb { s with canUseDisplay := true } hedf]
      exact scrollSetting_c9 s (-1)
  · obtain ⟨hp1, ho1, ht1⟩ := settingsOK_canUse cb s false
    obtain ⟨hp2, ho2, ht2⟩ := settingsOK_canUse cb s true
    exact c9p_of_eq (ho1.trans ho2.symm) (ht1.trans ht2.symm) (hp1.trans hp2.symm)
  · obtain ⟨hp1, ho1, ht1⟩ := settingsStop_canUse cb s false
    obtain ⟨hp2, ho2, ht2⟩ := settingsStop_canUse cb s true
    exact c9p_of_eq (ho1.trans ho2.symm) (ht1.trans ht2.symm) (hp1.trans hp2.symm)

/-! Navigation round trips (claim C7). -/

theorem navInv_of_B {s : SState} (h : navInvB s = true) :
    s.currentSetting = 0 ∨ (0 ≤ s.currentSetting ∧
      s.currentSetting < (s.settings.length : Int) ∧
      isNullAt s.settings s.currentSetting = false) := by
  unfold navInvB at h
  rw [Bool.or_eq_true] at h
  rcases h with h | h
  · left
    rw [beq_iff_eq] at h
    exact h
  · right
    rw [Bool.and_eq_true, Bool.and_eq_true] at h
    obtain ⟨⟨h1, h2⟩, h3⟩ := h
    rw [Bool.not_eq_true'] at h3
    exact ⟨of_decide_eq_true h1, of_decide_eq_true h2, h3⟩

theorem navIter_succ_last (l : List Setting) (d : Int) : ∀ (k : Nat) (c : Int),
    navIter l d (k + 1) c =
      match navIter l d k c with
      | some x => seek l d (l.length + 1) x
      | none => none := by
  intro k
  induction k with
  | zero =>
      intro c
      show (match seek l d (l.length + 1) c with
            | some c2 => navIter l d 0 c2
            | none => none) = seek l d (l.length + 1) c
      cases hs : seek l d (l.length + 1) c with
      | none => rfl
      | some c2 => rfl
  | succ k ih =>
      intro c
      show (match seek l d (l.length + 1) c with
            | some c2 => navIter l d (k + 1) c2
            | none => none) =
          match navIter l d (k + 1) c with
          | some x => seek l d (l.length + 1) x
          | none => none
      cases hs : seek l d (l.length + 1) c with
      | none =>
          have hred : navIter l d (k + 1) c = none := by
            show (match seek l d (l.length + 1) c with
                  | some c2 => navIter l d k c2
                  | none => none) = none
            rw [hs]
          rw [hred]
      | some c1 =>
          have hred : navIter l d (k + 1) c = navIter l d k c1 := by
            show (match seek l d (l.length + 1) c with
                  | some c2 => navIter l d k c2
                  | none => none) = navIter l d k c1
            rw [hs]
          rw [hred]
          exact ih c1

theorem up_down_round (l : List Setting) : ∀ (k : Nat) (c m b : Int),
    (c = 0 ∨ (0 ≤ c ∧ c < (l.length : Int) ∧ isNullAt l c = false)) →
    navIter l 1 k c = some m → navIter l (-1) k m = some b → b = c := by
  intro k
  induction k with
  | zero =>
      intro c m b _ h1 h2
      have hm := Option.some.inj h1
      have hb := Option.some.inj h2
      omega
  | succ k ih =>
      intro c m b hinv h1 h2
      cases hs1 : seek l 1 (l.length + 1) c with
      | none =>
          exfalso
          have h1x : navIter l 1 (k + 1) c = none := by
            show (match seek l 1 (l.length + 1) c with
                  | some c2 => navIter l 1 k c2
                  | none => none) = none
            rw [hs1]
          rw [h1x] at h1
          exact Option.noConfusion h1
      | some c1 =>
          have h1x : navIter l 1 (k + 1) c = navIter l 1 k c1 := by
            show (match seek l 1 (l.length + 1) c with
                  | some c2 => navIter l 1 k c2
                  | none => none) = navIter l 1 k c1
            rw [hs1]
          rw [h1x] at h1
          rw [navIter_succ_last] at h2
          cases hb1 : navIter l (-1) k m with
          | none =>
              rw [hb1] at h2
              exact Option.noConfusion h2
          | some b1 =>
              rw [hb1] at h2
              have h2x : seek l (-1) (l.length + 1) b1 = some b := h2
              obtain ⟨hc1a, hc1b, hc1c, hc1d⟩ := seek_pos_char l _ c c1 hs1
              have hinv1 : c1 = 0 ∨ (0 ≤ c1 ∧ c1 < (l.length : Int) ∧
                  isNullAt l c1 = false) := by
                right
                refine ⟨?_, hc1b, hc1c⟩
                rcases hinv with h | h <;> omega
              have hb1c1 : b1 = c1 := ih c1 m b1 hinv1 h1 hb1
              rw [hb1c1] at h2x
              obtain ⟨hba, hbb, hbc, hbd⟩ := seek_neg_char l _ c1 b h2x
              by_cases hnullc : isNullAt l c = true
              · have hc0 : c = 0 := by
                  rcases hinv with h | h
                  · exact h
                  · rw [h.2.2] at hnullc
                    exact absurd hnullc Bool.false_ne_true
                exfalso
                by_cases hbeq : b = c
                · rw [hbeq, hnullc] at hbc
                  exact Bool.noConfusion hbc
                · have hbgt : c < b := by omega
                  have hx := hc1d b hbgt hba
                  rw [hx] at hbc
                  exact Bool.noConfusion hbc
              · have hcnull : isNullAt l c = false := bool_eq_false hnullc
                by_cases hbeq : b = c
                · exact hbeq
                · exfalso
                  by_cases hblt : b < c
                  · have hx := hbd c hblt hc1a
                    rw [hx] at hcnull
                    exact Bool.noConfusion hcnull
                  · have hbgt : c < b := by omega
                    have hx := hc1d b hbgt hba
                    rw [hx] at hbc
                    exact Bool.noConfusion hbc

theorem down_up_round (l : List Setting) : ∀ (k : Nat) (c m b : Int),
    (c = 0 ∨ (0 ≤ c ∧ c < (l.length : Int) ∧ isNullAt l c = false)) →
    navIter l (-1) k c = some m → navIter l 1 k m = some b → b = c := by
  intro k
  induction k with
  | zero =>
      intro c m b _ h1 h2
      have hm := Option.some.inj h1
      have hb := Option.some.inj h2
      omega
  | succ k ih =>
      intro c m b hinv h1 h2
      cases hs1 : seek l (-1) (l.length + 1) c with
      | none =>
          exfalso
          have h1x : navIter l (-1) (k + 1) c = none := by
            show (match seek l (-1) (l.length + 1) c with
                  | some c2 => navIter l (-1) k c2
                  | none => none) = none
            rw [hs1]
          rw [h1x] at h1
          exact Option.noConfusion h1
      | some c1 =>
          have h1x : navIter l (-1) (k + 1) c = navIter l (-1) k c1 := by
            show (match seek l (-1) (l.length + 1) c with
                  | some c2 => navIter l (-1) k c2
                  | none => none) = navIter l (-1) k c1
            rw [hs1]
          rw [h1x] at h1
          rw [navIter_succ_last] at h2
          cases hb1 : navIter l 1 k m with
          | none =>
              rw [hb1] at h2
              exact Option.noConfusion h2
          | some b1 =>
              rw [hb1] at h2
              have h2x : seek l 1 (l.length + 1) b1 = some b := h2
              obtain ⟨hc1a, hc1b, hc1c, hc1d⟩ := seek_neg_char l _ c c1 hs1
              have hcpos : 0 < c := by omega
              have hcinv : 0 ≤ c ∧ c < (l.length : Int) ∧ isNullAt l c = false := by
                rcases hinv with h | h
                · omega
                · exact h
              have hinv1 : c1 = 0 ∨ (0 ≤ c1 ∧ c1 < (l.length : Int) ∧
                  isNullAt l c1 = false) := by
                right
                exact ⟨hc1b, by omega, hc1c⟩
              have hb1c1 : b1 = c1 := ih c1 m b1 hinv1 h1 hb1
              rw [hb1c1] at h2x
              obtain ⟨hba, hbb, hbc, hbd⟩ := seek_pos_char l _ c1 b h2x
              by_cases hbeq : b = c
              · exact hbeq
              · exfalso
                by_cases hblt : b < c
                · have hx := hc1d b hba hblt
                  rw [hx] at hbc
                  exact Bool.noConfusion hbc
                · have hbgt : c < b := by omega
                  have hx := hbd c hc1a hbgt
                  rw [hx] at hcinv
                  exact Bool.noConfusion hcinv.2.2

theorem run_nav (cb : Nat → Setting → Bool) (d : Int) (o : Op)
    (ho : (d = 1 ∧ o = Op.up) ∨ (d = -1 ∧ o = Op.down)) : ∀ (k : Nat) (s : SState) (m : Int),
    s.editing = false →
    navIter s.settings d k s.currentSetting = some m →
    (run cb s (List.replicate k o)).settings = s.settings ∧
    (run cb s (List.replicate k o)).editing = false ∧
    (run cb s (List.replicate k o)).currentSetting = m := by
  intro k
  induction k with
  | zero =>
      intro s m hed h
      exact ⟨rfl, hed, Option.some.inj h⟩
  | succ k ih =>
      intro s m hed h
      cases hs : seek s.settings d (s.settings.length + 1) s.currentSetting with
      | none =>
          exfalso
          have hx : navIter s.settings d (k + 1) s.currentSetting = none := by
            show (match seek s.settings d (s.settings.length + 1) s.currentSetting with
                  | some c2 => navIter s.settings d k c2
                  | none => none) = none
            rw [hs]
          rw [hx] at h
          exact Option.noConfusion h
      | some c1 =>
          have hx : navIter s.settings d (k + 1) s.currentSetting =
              navIter s.settings d k c1 := by
            show (match seek s.settings d (s.settings.length + 1) s.currentSetting with
                  | some c2 => navIter s.settings d k c2
                  | none => none) = navIter s.settings d k c1
            rw [hs]
          rw [hx] at h
          have hstep : step cb s o = (scrollSetting s d).st := by
            rcases ho with ⟨rfl, rfl⟩ | ⟨rfl, rfl⟩
            · show (settingsUp cb s).st = _
              rw [settingsUp_browsing cb s hed]
            · show (settingsDown cb s).st = _
              rw [settingsDown_browsing cb s hed]
          have hset := scrollSetting_settings s d
          have hed2 := scrollSetting_editing s d
          have hcur := scrollSetting_cur s d
          rw [hs, Option.getD_some] at hcur
          have hrun : run cb s (List.replicate (k + 1) o) =
              run cb ((scrollSetting s d).st) (List.replicate k o) := by
            rw [List.replicate_succ]
            rw [show run cb s (o :: List.replicate k o) =
              run cb (step cb s o) (List.replicate k o) from rfl, hstep]
          rw [hrun]
          have hih := ih ((scrollSetting s d).st) m (by rw [hed2]; exact hed)
            (by rw [hset, hcur]; exact h)
          refine ⟨?_, hih.2.1, hih.2.2⟩
          rw [hih.1, hset]

/-- Claim C7: from a browsing state whose selection is the initial index or
a valid selectable setting, k onUp events followed by k onDown events (and
symmetrically k onDown then k onUp) return the selection to its original
index, provided no step of either run was clamped (every scrollSetting
search succeeded). -/
theorem c7_up_down_roundtrip (cb : Nat → Setting → Bool) (s : SState) (k : Nat)
    (hed : s.editing = false) (hinv : navInvB s = true) :
    (∀ m b, navIter s.settings 1 k s.currentSetting = some m →
      navIter s.settings (-1) k m = some b →
      (run cb s (List.replicate k Op.up ++ List.replicate k Op.down)).currentSetting =
        s.currentSetting) ∧
    (∀ m b, navIter s.settings (-1) k s.currentSetting = some m →
      navIter s.settings 1 k m = some b →
      (run cb s (List.replicate k Op.down ++ List.replicate k Op.up)).currentSetting =
        s.currentSetting) := by
  have hinvP := navInv_of_B hinv
  constructor
  · intro m b h1 h2
    rw [show run cb s (List.replicate k Op.up ++ List.replicate k Op.down) =
      run cb (run cb s (List.replicate k Op.up)) (List.replicate k Op.down) from
      List.foldl_append _ _ _ _]
    obtain ⟨hs1, he1, hc1⟩ := run_nav cb 1 Op.up (Or.inl ⟨rfl, rfl⟩) k s m hed h1
    obtain ⟨hs2, he2, hc2⟩ := run_nav cb (-1) Op.down (Or.inr ⟨rfl, rfl⟩) k
      (run cb s (List.replicate k Op.up)) b he1 (by rw [hs1, hc1]; exact h2)
    rw [hc2]
    exact up_down_round s.settings k s.currentSetting m b hinvP h1 h2
  · intro m b h1 h2
    rw [show run cb s (List.replicate k Op.down ++ List.replicate k Op.up) =
      run cb (run cb s (List.replicate k Op.down)) (List.replicate k Op.up) from
      List.foldl_append _ _ _ _]
    obtain ⟨hs1, he1, hc1⟩ := run_nav cb (-1) Op.down (Or.inr ⟨rfl, rfl⟩) k s m hed h1
    obtain ⟨hs2, he2, hc2⟩ := run_nav cb 1 Op.up (Or.inl ⟨rfl, rfl⟩) k
      (run cb s (List.replicate k Op.down)) b he1 (by rw [hs1, hc1]; exact h2)
    rw [hc2]
    exact down_up_round s.settings k s.currentSetting m b hinvP h1 h2

theorem c7_witness :
    sNav.editing = false ∧ navInvB sNav = true ∧
    navIter sNav.settings 1 1 sNav.currentSetting = some 2 ∧
    navIter sNav.settings (-1) 1 2 = some 0 ∧
    (run cbTrue sNav (List.replicate 1 Op.up ++ List.replicate 1 Op.down)).currentSetting =
      sNav.currentSetting :=
  ⟨rfl, by decide, by decide, by decide,
    (c7_up_down_roundtrip cbTrue sNav 1 rfl (by decide)).1 2 0 (by decide) (by decide)⟩

end SettingsLib
